import Mathlib

/-!
Shallow embedding of `programs/reward-pool/src/lib.rs` (a Solana program):
data model (`RewardPool`, `FarmerAccount`, `TaskCompletionRecord`), the
program-derived address space, and the five instruction processors.

Conventions of the embedding:
* `u64` / `u8` fields are `Nat`; the source performs plain (unchecked) Rust
  arithmetic on them (`+=`, `*`, `-`), which in the deployed release build
  wraps modulo `2^64`; we embed those operations as `wadd` / `wmul` / `wsub`
  (explicit `% 2^64`).
* Pubkeys are `Nat`; program-derived addresses (`find_program_address` over the
  distinct seed tags `"reward_pool"`, `"farmer"`, `"task"`, `"reward_vault"`)
  are the constructors of `Addr`, which bakes in determinism and
  collision-freeness of the derivation.
* The account store is `Addr → Option Record`.  `try_from_slice` on an account
  whose data is absent or not of the expected shape is `DeserializeFailure`;
  `invoke(create_account ...)` on an occupied address is `AccountAlreadyInUse`.
* Each processor returns `Store × Except ProgErr α`: the Rust code mutates
  account data in place and *then* may return `Err`, so the store component is
  the account data as the function left it, also on the error paths (the
  surrounding Solana runtime, not the program, rolls a failed transaction
  back).
* SPL token accounts (vault, farmer token account, treasury) are owned by the
  token program, not by this program's store; their unpacked contents are
  passed as `TokenAcct` values.  The two `spl_token::transfer` invocations are
  external calls that do not touch this program's record store; the withdrawal
  processor returns the two transfer amounts on success.
-/

/-- Errors of the program: `RewardPoolError` from the source. -/
inductive RewardPoolError where
  | InvalidFeePercentage
  | UnauthorizedPlatform
  | AccountNotInitialized
  | RewardPoolPaused
  | TaskAlreadyClaimed
  | InvalidNonce
  | InsufficientTokenBalance
  | InvalidTokenAccount
  | TaskNotFound
  | InvalidFarmerAddress
deriving DecidableEq, Repr

/-- The `ProgramError` values the source can return (custom errors plus the
builtin ones it uses; `AccountAlreadyInUse` stands for `create_account`
failing at an occupied address, `DeserializeFailure` for
`try_from_slice` / `unpack` failing on absent or ill-shaped account data). -/
inductive ProgErr where
  | Custom (e : RewardPoolError)
  | MissingRequiredSignature
  | InvalidSeeds
  | InvalidArgument
  | AccountAlreadyInUse
  | DeserializeFailure
deriving DecidableEq, Repr

/-- `RewardPool` account data (the singleton pool config). -/
structure RewardPool where
  is_initialized : Bool
  platform_authority : Nat
  platform_fee_percentage : Nat
  total_rewards_distributed : Nat
  total_platform_fees_collected : Nat
  is_paused : Bool
deriving DecidableEq, Repr

/-- `FarmerAccount` account data (per-farmer ledger). -/
structure FarmerAccount where
  is_initialized : Bool
  farmer_address : Nat
  withdrawal_nonce : Nat
  total_rewards_earned : Nat
  total_rewards_withdrawn : Nat
  last_withdrawal_slot : Nat
deriving DecidableEq, Repr

/-- `TaskCompletionRecord` account data (one per recorded task). -/
structure TaskCompletionRecord where
  is_initialized : Bool
  task_id : String
  farmer_address : Nat
  pool_id : String
  reward_amount : Nat
  token_mint : Nat
  is_claimed : Bool
  completion_slot : Nat
deriving DecidableEq, Repr

/-- Unpacked SPL token account contents (mint and balance), as read by
`TokenAccount::unpack` in the withdrawal processor. -/
structure TokenAcct where
  mint : Nat
  amount : Nat
deriving DecidableEq, Repr

/-- The address space.  The four PDA constructors embed
`find_program_address` over the seed tags `"reward_pool"`,
`["farmer", farmer]`, `["task", task_id]`, `["reward_vault", mint]`, which are
deterministic and pairwise collision-free; `user` covers every other
(non-derived) account address. -/
inductive Addr where
  | poolPda : Addr
  | farmerPda : Nat → Addr
  | taskPda : String → Addr
  | vaultPda : Nat → Addr
  | user : Nat → Addr
deriving DecidableEq, Repr

/-- Typed contents of a program-owned account. -/
inductive Record where
  | pool (p : RewardPool)
  | farmer (f : FarmerAccount)
  | task (t : TaskCompletionRecord)
deriving DecidableEq, Repr

/-- The record store: program-owned account data per address. -/
abbrev Store := Addr → Option Record

/-- Point update of the store (serializing a record into an account). -/
def update (σ : Store) (a : Addr) (r : Record) : Store :=
  fun b => if b = a then some r else σ b

/-- The store with no program-owned accounts allocated yet. -/
def emptyStore : Store := fun _ => none

/-- The u64 modulus. -/
def U64MOD : Nat := 18446744073709551616

/-- Wrapping u64 addition (Rust `+` / `+=` in the release build). -/
def wadd (a b : Nat) : Nat := (a + b) % U64MOD

/-- Wrapping u64 multiplication (Rust `*` in the release build). -/
def wmul (a b : Nat) : Nat := (a * b) % U64MOD

/-- Wrapping u64 subtraction (Rust `-` in the release build), for
`a b < 2^64`. -/
def wsub (a b : Nat) : Nat := (a + U64MOD - b) % U64MOD

/-- Boolean success test for `Except`. -/
def isOkE {α : Type} : Except ProgErr α → Bool
  | .ok _ => true
  | .error _ => false

/-- `process_initialize_reward_pool`: checks the fee bound, the authority
signature and the pool PDA, then creates the pool account (failing at an
occupied address) and writes a fresh `RewardPool`.  It never reads previously
stored pool contents. -/
def process_initialize_reward_pool (σ : Store) (rewardPoolKey : Addr)
    (authorityKey : Nat) (authoritySigner : Bool)
    (platform_fee_percentage : Nat) : Store × Except ProgErr Unit :=
  if platform_fee_percentage > 100 then
    (σ, .error (.Custom .InvalidFeePercentage))
  else if !authoritySigner then
    (σ, .error .MissingRequiredSignature)
  else if rewardPoolKey ≠ Addr.poolPda then
    (σ, .error .InvalidSeeds)
  else if (σ Addr.poolPda).isSome then
    (σ, .error .AccountAlreadyInUse)
  else
    let reward_pool : RewardPool :=
      { is_initialized := true
        platform_authority := authorityKey
        platform_fee_percentage := platform_fee_percentage
        total_rewards_distributed := 0
        total_platform_fees_collected := 0
        is_paused := false }
    (update σ Addr.poolPda (.pool reward_pool), .ok ())

/-- Tail of `process_record_task_completion` once the farmer ledger value is
in hand: creates the task record account (an occupied address — a duplicate
task id — fails here), adds the reward to `total_rewards_earned` with plain
(wrapping) u64 addition, and serializes pool, ledger and task record. -/
def recordFinish (σ₁ : Store) (reward_pool : RewardPool)
    (farmer_data : FarmerAccount) (farmerKey mintKey : Nat)
    (task_id pool_id : String) (reward_amount : Nat) (slot : Nat) :
    Store × Except ProgErr Unit :=
  if (σ₁ (Addr.taskPda task_id)).isSome then
    (σ₁, .error .AccountAlreadyInUse)
  else
    let task_record : TaskCompletionRecord :=
      { is_initialized := true
        task_id := task_id
        farmer_address := farmerKey
        pool_id := pool_id
        reward_amount := reward_amount
        token_mint := mintKey
        is_claimed := false
        completion_slot := slot }
    let farmer_data' := { farmer_data with
      total_rewards_earned :=
        wadd farmer_data.total_rewards_earned reward_amount }
    let σ₂ := update σ₁ Addr.poolPda (.pool reward_pool)
    let σ₃ := update σ₂ (Addr.farmerPda farmerKey) (.farmer farmer_data')
    let σ₄ := update σ₃ (Addr.taskPda task_id) (.task task_record)
    (σ₄, .ok ())

/-- `process_record_task_completion`: authority-signed accrual of one task.
Checks authority signature, pool state (initialized, authority, not paused),
the three PDAs; creates the farmer ledger if absent (`create_account`
allocates zeroed data; the ledger struct itself is only serialized at the
end) or loads and checks it; then `recordFinish`. -/
def process_record_task_completion (σ : Store)
    (rewardPoolKey farmerAccountKey taskRecordKey : Addr)
    (farmerKey mintKey : Nat) (authorityKey : Nat) (authoritySigner : Bool)
    (task_id pool_id : String) (reward_amount : Nat) (slot : Nat) :
    Store × Except ProgErr Unit :=
  if !authoritySigner then (σ, .error .MissingRequiredSignature) else
  match σ rewardPoolKey with
  | some (.pool reward_pool) =>
    if !reward_pool.is_initialized then
      (σ, .error (.Custom .AccountNotInitialized))
    else if reward_pool.platform_authority ≠ authorityKey then
      (σ, .error (.Custom .UnauthorizedPlatform))
    else if reward_pool.is_paused then
      (σ, .error (.Custom .RewardPoolPaused))
    else if rewardPoolKey ≠ Addr.poolPda then
      (σ, .error .InvalidSeeds)
    else if farmerAccountKey ≠ Addr.farmerPda farmerKey then
      (σ, .error .InvalidSeeds)
    else if taskRecordKey ≠ Addr.taskPda task_id then
      (σ, .error .InvalidSeeds)
    else
      -- create or load the farmer ledger
      match σ (Addr.farmerPda farmerKey) with
      | none =>
        -- `create_account` allocates zeroed data now; the ledger struct is
        -- only serialized at the end of the call (by `recordFinish`)
        recordFinish
          (update σ (Addr.farmerPda farmerKey)
            (.farmer { is_initialized := false, farmer_address := 0,
                       withdrawal_nonce := 0, total_rewards_earned := 0,
                       total_rewards_withdrawn := 0, last_withdrawal_slot := 0 }))
          reward_pool
          { is_initialized := true, farmer_address := farmerKey,
            withdrawal_nonce := 0, total_rewards_earned := 0,
            total_rewards_withdrawn := 0, last_withdrawal_slot := 0 }
          farmerKey mintKey task_id pool_id reward_amount slot
      | some (.farmer existing) =>
        if !existing.is_initialized then
          (σ, .error (.Custom .AccountNotInitialized))
        else if existing.farmer_address ≠ farmerKey then
          (σ, .error (.Custom .InvalidFarmerAddress))
        else
          recordFinish σ reward_pool existing
            farmerKey mintKey task_id pool_id reward_amount slot
      | some _ => (σ, .error .DeserializeFailure)
  | _ => (σ, .error .DeserializeFailure)

/-- The per-task loop of `process_withdraw_rewards`.  For each task id it
locates the record (absent from the passed accounts ⇒ `TaskNotFound`), checks
initialization, the farmer, the claim flag and mint consistency, accumulates
the total with plain (wrapping) u64 addition, and immediately serializes the
record back with `is_claimed := true` — the mutation is not staged. -/
def claimTasks (farmerKey : Nat) :
    List String → Store → Nat → Option Nat →
    Store × Except ProgErr (Nat × Option Nat)
  | [], σ, total, mintOpt => (σ, .ok (total, mintOpt))
  | task_id :: rest, σ, total, mintOpt =>
    match σ (Addr.taskPda task_id) with
    | some (.task task_record) =>
      if !task_record.is_initialized then
        (σ, .error (.Custom .AccountNotInitialized))
      else if task_record.farmer_address ≠ farmerKey then
        (σ, .error (.Custom .InvalidFarmerAddress))
      else if task_record.is_claimed then
        (σ, .error (.Custom .TaskAlreadyClaimed))
      else
        match mintOpt with
        | some m =>
          if m ≠ task_record.token_mint then
            (σ, .error .InvalidArgument)
          else
            claimTasks farmerKey rest
              (update σ (Addr.taskPda task_id)
                (.task { task_record with is_claimed := true }))
              (wadd total task_record.reward_amount) (some m)
        | none =>
          claimTasks farmerKey rest
            (update σ (Addr.taskPda task_id)
              (.task { task_record with is_claimed := true }))
            (wadd total task_record.reward_amount)
            (some task_record.token_mint)
    | _ => (σ, .error (.Custom .TaskNotFound))

/-- The guard prefix of `process_withdraw_rewards` (source lines before the
per-task loop): farmer signature; pool loaded, initialized, not paused;
ledger loaded, initialized, matching the caller; exact nonce equality; pool
and ledger PDA checks.  None of these mutate the store; on success the
loaded pool and ledger are returned. -/
def withdrawGuards (σ : Store) (rewardPoolKey farmerAccountKey : Addr)
    (farmerKey : Nat) (farmerSigner : Bool) (expected_nonce : Nat) :
    Except ProgErr (RewardPool × FarmerAccount) :=
  if !farmerSigner then .error .MissingRequiredSignature else
  match σ rewardPoolKey with
  | some (.pool reward_pool) =>
    if !reward_pool.is_initialized then
      .error (.Custom .AccountNotInitialized)
    else if reward_pool.is_paused then
      .error (.Custom .RewardPoolPaused)
    else
      match σ farmerAccountKey with
      | some (.farmer farmer_data) =>
        if !farmer_data.is_initialized then
          .error (.Custom .AccountNotInitialized)
        else if farmer_data.farmer_address ≠ farmerKey then
          .error (.Custom .InvalidFarmerAddress)
        else if farmer_data.withdrawal_nonce ≠ expected_nonce then
          .error (.Custom .InvalidNonce)
        else if rewardPoolKey ≠ Addr.poolPda then
          .error .InvalidSeeds
        else if farmerAccountKey ≠ Addr.farmerPda farmerKey then
          .error .InvalidSeeds
        else .ok (reward_pool, farmer_data)
      | _ => .error .DeserializeFailure
  | _ => .error .DeserializeFailure

/-- The tail of `process_withdraw_rewards` after the per-task loop: the
nonzero-total check, the `unwrap` of the batch mint, the vault PDA check,
the three token-account checks, the fee split
`fee = (total * pct) / 100` and `farmer amount = total - fee` with plain
(wrapping) u64 arithmetic, the two external transfers, and the ledger/pool
counter updates.  On success the returned pair is
`(farmer_reward_amount, platform_fee_amount)`, the two transfer amounts. -/
def withdrawFinish (σ₁ : Store) (reward_pool : RewardPool)
    (farmer_data : FarmerAccount) (rewardVaultKey : Addr)
    (vault farmerTok treasury : TokenAcct) (farmerKey : Nat)
    (total_reward_amount : Nat) (mintOpt : Option Nat) (slot : Nat) :
    Store × Except ProgErr (Nat × Nat) :=
  if total_reward_amount = 0 then (σ₁, .error .InvalidArgument) else
  match mintOpt with
  | none =>
    -- unreachable: a nonzero total forces a nonempty batch, whose first
    -- task set the mint (Rust `unwrap`)
    (σ₁, .error .InvalidArgument)
  | some token_mint =>
    if rewardVaultKey ≠ Addr.vaultPda token_mint then
      (σ₁, .error .InvalidSeeds)
    else if vault.mint ≠ token_mint then
      (σ₁, .error (.Custom .InvalidTokenAccount))
    else if vault.amount < total_reward_amount then
      (σ₁, .error (.Custom .InsufficientTokenBalance))
    else if farmerTok.mint ≠ token_mint then
      (σ₁, .error (.Custom .InvalidTokenAccount))
    else if treasury.mint ≠ token_mint then
      (σ₁, .error (.Custom .InvalidTokenAccount))
    else
      -- fee split (pure values, computed in the source right after the
      -- vault PDA check); the two spl_token transfers are external calls
      -- and do not touch this program's record store
      let platform_fee_amount :=
        wmul total_reward_amount reward_pool.platform_fee_percentage / 100
      let farmer_reward_amount :=
        wsub total_reward_amount platform_fee_amount
      let farmer_data' := { farmer_data with
        withdrawal_nonce := wadd farmer_data.withdrawal_nonce 1
        total_rewards_withdrawn :=
          wadd farmer_data.total_rewards_withdrawn total_reward_amount
        last_withdrawal_slot := slot }
      let reward_pool' := { reward_pool with
        total_rewards_distributed :=
          wadd reward_pool.total_rewards_distributed farmer_reward_amount
        total_platform_fees_collected :=
          wadd reward_pool.total_platform_fees_collected
            platform_fee_amount }
      let σ₂ := update σ₁ Addr.poolPda (.pool reward_pool')
      let σ₃ := update σ₂ (Addr.farmerPda farmerKey) (.farmer farmer_data')
      (σ₃, .ok (farmer_reward_amount, platform_fee_amount))

/-- `process_withdraw_rewards`: farmer-signed batched withdrawal — the guard
prefix (`withdrawGuards`, mutating nothing), then the per-task loop
(`claimTasks`, mutating claim flags in place), then the tail
(`withdrawFinish`). -/
def process_withdraw_rewards (σ : Store)
    (rewardPoolKey farmerAccountKey rewardVaultKey : Addr)
    (vault farmerTok treasury : TokenAcct)
    (farmerKey : Nat) (farmerSigner : Bool)
    (task_ids : List String) (expected_nonce : Nat) (slot : Nat) :
    Store × Except ProgErr (Nat × Nat) :=
  match withdrawGuards σ rewardPoolKey farmerAccountKey farmerKey
      farmerSigner expected_nonce with
  | .error err => (σ, .error err)
  | .ok (reward_pool, farmer_data) =>
    match claimTasks farmerKey task_ids σ 0 none with
    | (σ₁, .error err) => (σ₁, .error err)
    | (σ₁, .ok (total_reward_amount, mintOpt)) =>
      withdrawFinish σ₁ reward_pool farmer_data rewardVaultKey
        vault farmerTok treasury farmerKey total_reward_amount mintOpt slot

/-- `process_set_paused`: authority-signed pause toggle; consults no pause
gate itself. -/
def process_set_paused (σ : Store) (rewardPoolKey : Addr)
    (authorityKey : Nat) (authoritySigner : Bool) (is_paused : Bool) :
    Store × Except ProgErr Unit :=
  if !authoritySigner then (σ, .error .MissingRequiredSignature) else
  if rewardPoolKey ≠ Addr.poolPda then (σ, .error .InvalidSeeds) else
  match σ Addr.poolPda with
  | some (.pool reward_pool) =>
    if !reward_pool.is_initialized then
      (σ, .error (.Custom .AccountNotInitialized))
    else if reward_pool.platform_authority ≠ authorityKey then
      (σ, .error (.Custom .UnauthorizedPlatform))
    else
      (update σ Addr.poolPda (.pool { reward_pool with is_paused := is_paused }),
       .ok ())
  | _ => (σ, .error .DeserializeFailure)

/-- `process_update_platform_fee`: authority-signed fee change, rejecting
percentages above 100; consults no pause gate. -/
def process_update_platform_fee (σ : Store) (rewardPoolKey : Addr)
    (authorityKey : Nat) (authoritySigner : Bool) (new_fee_percentage : Nat) :
    Store × Except ProgErr Unit :=
  if new_fee_percentage > 100 then
    (σ, .error (.Custom .InvalidFeePercentage))
  else if !authoritySigner then (σ, .error .MissingRequiredSignature) else
  if rewardPoolKey ≠ Addr.poolPda then (σ, .error .InvalidSeeds) else
  match σ Addr.poolPda with
  | some (.pool reward_pool) =>
    if !reward_pool.is_initialized then
      (σ, .error (.Custom .AccountNotInitialized))
    else if reward_pool.platform_authority ≠ authorityKey then
      (σ, .error (.Custom .UnauthorizedPlatform))
    else
      (update σ Addr.poolPda
        (.pool { reward_pool with platform_fee_percentage := new_fee_percentage }),
       .ok ())
  | _ => (σ, .error .DeserializeFailure)

/-- One instruction together with its account and argument vector, mirroring
`RewardPoolInstruction` plus the accounts each processor receives. -/
inductive Op where
  | initPool (rewardPoolKey : Addr) (authorityKey : Nat)
      (authoritySigner : Bool) (fee : Nat)
  | recordTask (rewardPoolKey farmerAccountKey taskRecordKey : Addr)
      (farmerKey mintKey authorityKey : Nat) (authoritySigner : Bool)
      (task_id pool_id : String) (reward_amount : Nat) (slot : Nat)
  | withdraw (rewardPoolKey farmerAccountKey rewardVaultKey : Addr)
      (vault farmerTok treasury : TokenAcct) (farmerKey : Nat)
      (farmerSigner : Bool) (task_ids : List String) (expected_nonce : Nat)
      (slot : Nat)
  | setPaused (rewardPoolKey : Addr) (authorityKey : Nat)
      (authoritySigner : Bool) (is_paused : Bool)
  | updateFee (rewardPoolKey : Addr) (authorityKey : Nat)
      (authoritySigner : Bool) (fee : Nat)

/-- Dispatch of `process_instruction`: the store an instruction leaves behind
(successful or not). -/
def applyOp (o : Op) (σ : Store) : Store :=
  match o with
  | .initPool k a s fee => (process_initialize_reward_pool σ k a s fee).1
  | .recordTask k1 k2 k3 fk mk ak s tid pid amt slot =>
    (process_record_task_completion σ k1 k2 k3 fk mk ak s tid pid amt slot).1
  | .withdraw k1 k2 k3 v ft tr fk s tids e slot =>
    (process_withdraw_rewards σ k1 k2 k3 v ft tr fk s tids e slot).1
  | .setPaused k a s p => (process_set_paused σ k a s p).1
  | .updateFee k a s fee => (process_update_platform_fee σ k a s fee).1

/-- Stores reachable from the uninitialized store by instruction steps. -/
inductive Reachable : Store → Prop where
  | base : Reachable emptyStore
  | step (o : Op) {σ : Store} : Reachable σ → Reachable (applyOp o σ)

/-- The fee-bound invariant of the pool config. -/
def PoolFeeOK (σ : Store) : Prop :=
  ∀ p : RewardPool, σ Addr.poolPda = some (.pool p) →
    p.platform_fee_percentage ≤ 100

/-! Concrete states used by counterexamples and witnesses. -/

/-- A pool config with a 10% fee, authority 50, unpaused. -/
def poolA : RewardPool :=
  { is_initialized := true, platform_authority := 50,
    platform_fee_percentage := 10, total_rewards_distributed := 0,
    total_platform_fees_collected := 0, is_paused := false }

/-- Farmer 7's ledger at nonce 0 with 1000 earned. -/
def farmerA : FarmerAccount :=
  { is_initialized := true, farmer_address := 7, withdrawal_nonce := 0,
    total_rewards_earned := 1000, total_rewards_withdrawn := 0,
    last_withdrawal_slot := 0 }

/-- An unclaimed 1000-reward task of farmer 7 on mint 3. -/
def taskA : TaskCompletionRecord :=
  { is_initialized := true, task_id := "t1", farmer_address := 7,
    pool_id := "p1", reward_amount := 1000, token_mint := 3,
    is_claimed := false, completion_slot := 0 }

/-- Store with `poolA`, `farmerA` and task "t1". -/
def storeA : Store := fun a =>
  match a with
  | .poolPda => some (.pool poolA)
  | .farmerPda 7 => some (.farmer farmerA)
  | .taskPda "t1" => some (.task taskA)
  | _ => none

/-- Farmer 7's ledger with the withdrawal nonce at `u64::MAX`. -/
def farmerMax : FarmerAccount :=
  { farmerA with withdrawal_nonce := 18446744073709551615 }

/-- Store like `storeA` but with the ledger nonce at `u64::MAX`. -/
def storeMax : Store := fun a =>
  match a with
  | .poolPda => some (.pool poolA)
  | .farmerPda 7 => some (.farmer farmerMax)
  | .taskPda "t1" => some (.task taskA)
  | _ => none

/-- A pool config charging the maximal legal fee of 100%. -/
def poolFull : RewardPool := { poolA with platform_fee_percentage := 100 }

/-- A task worth `2^63`, large enough to wrap `total * fee_percentage`. -/
def taskBig : TaskCompletionRecord :=
  { taskA with reward_amount := 9223372036854775808 }

/-- Store with the 100%-fee pool and the `2^63`-reward task. -/
def storeBig : Store := fun a =>
  match a with
  | .poolPda => some (.pool poolFull)
  | .farmerPda 7 => some (.farmer farmerA)
  | .taskPda "t1" => some (.task taskBig)
  | _ => none

/-- Farmer 7's ledger with `total_rewards_earned` at `u64::MAX`. -/
def farmerHigh : FarmerAccount :=
  { farmerA with total_rewards_earned := 18446744073709551615 }

/-- Store with the saturated ledger and no task records. -/
def storeHigh : Store := fun a =>
  match a with
  | .poolPda => some (.pool poolA)
  | .farmerPda 7 => some (.farmer farmerHigh)
  | _ => none

/-- A second unclaimed task of farmer 7 on a different mint (4). -/
def taskB4 : TaskCompletionRecord :=
  { taskA with task_id := "t2", token_mint := 4, reward_amount := 500 }

/-- Store holding two tasks of farmer 7 with inconsistent mints. -/
def storeD : Store := fun a =>
  match a with
  | .poolPda => some (.pool poolA)
  | .farmerPda 7 => some (.farmer farmerA)
  | .taskPda "t1" => some (.task taskA)
  | .taskPda "t2" => some (.task taskB4)
  | _ => none

/-- `poolA`, paused. -/
def poolPaused : RewardPool := { poolA with is_paused := true }

/-- Store like `storeA` but with the pool paused. -/
def storePaused : Store := fun a =>
  match a with
  | .poolPda => some (.pool poolPaused)
  | .farmerPda 7 => some (.farmer farmerA)
  | .taskPda "t1" => some (.task taskA)
  | _ => none

/-! Helper lemmas. -/

theorem update_same (σ : Store) (a : Addr) (r : Record) :
    update σ a r a = some r := by
  simp [update]

theorem update_ne (σ : Store) (a : Addr) (r : Record) {b : Addr} (h : b ≠ a) :
    update σ a r b = σ b := by
  simp [update, h]

theorem U64MOD_pos : 0 < U64MOD := by decide

theorem wadd_lt (a b : Nat) : wadd a b < U64MOD :=
  Nat.mod_lt _ U64MOD_pos

theorem wadd_eq_of_lt {a b : Nat} (h : a + b < U64MOD) : wadd a b = a + b :=
  Nat.mod_eq_of_lt h

theorem wsub_eq_of_le {a b : Nat} (hb : b ≤ a) (ha : a < U64MOD) :
    wsub a b = a - b := by
  unfold wsub
  have h1 : a + U64MOD - b = U64MOD + (a - b) := by omega
  rw [h1, Nat.add_mod_left, Nat.mod_eq_of_lt (by omega)]

/-- The fee the withdrawal processor computes never exceeds the batch total:
even when the unchecked multiplication `total * pct` wraps, the wrapped
product divided by 100 stays below any total large enough to wrap it. -/
theorem fee_le_total {T pct : Nat} (hT : T < U64MOD) (hp : pct ≤ 100) :
    wmul T pct / 100 ≤ T := by
  unfold wmul U64MOD at *
  rcases Nat.lt_or_ge (T * pct) 18446744073709551616 with h | h
  · rw [Nat.mod_eq_of_lt h]
    calc T * pct / 100 ≤ T * 100 / 100 :=
          Nat.div_le_div_right (Nat.mul_le_mul_left _ hp)
      _ = T := by omega
  · have h1 : T * pct % 18446744073709551616 < 18446744073709551616 :=
      Nat.mod_lt _ (by norm_num)
    have h2 : T * pct % 18446744073709551616 / 100 ≤
        18446744073709551615 / 100 := Nat.div_le_div_right (by omega)
    have h3 : (18446744073709551615 : Nat) / 100 = 184467440737095516 := by
      norm_num
    have h4 : 18446744073709551616 ≤ T * 100 :=
      le_trans h (Nat.mul_le_mul_left _ hp)
    omega

/-- Store effect of the per-task loop: only task PDAs change, and every
change is exactly the claim-flag flip of a record that was unclaimed when the
loop started. -/
theorem claimTasks_store (fk : Nat) (l : List String) (σ : Store)
    (total : Nat) (mo : Option Nat) :
    (∀ a : Addr, (∀ id, a ≠ Addr.taskPda id) →
      (claimTasks fk l σ total mo).1 a = σ a) ∧
    (∀ id, (claimTasks fk l σ total mo).1 (Addr.taskPda id) =
        σ (Addr.taskPda id) ∨
      ∃ t, σ (Addr.taskPda id) = some (.task t) ∧ t.is_claimed = false ∧
        (claimTasks fk l σ total mo).1 (Addr.taskPda id) =
          some (.task { t with is_claimed := true })) := by
  induction l generalizing σ total mo with
  | nil => exact ⟨fun a _ => rfl, fun id => Or.inl rfl⟩
  | cons id₀ rest ih =>
    unfold claimTasks
    split
    case h_2 => exact ⟨fun a _ => rfl, fun id => Or.inl rfl⟩
    case h_1 t hσ =>
      split
      case isTrue => exact ⟨fun a _ => rfl, fun id => Or.inl rfl⟩
      case isFalse hinit =>
        split
        case isTrue => exact ⟨fun a _ => rfl, fun id => Or.inl rfl⟩
        case isFalse hfarm =>
          split
          case isTrue => exact ⟨fun a _ => rfl, fun id => Or.inl rfl⟩
          case isFalse hclaim =>
            have hcl : t.is_claimed = false := by
              revert hclaim; cases t.is_claimed <;> simp
            have key : ∀ (total' : Nat) (mo' : Option Nat),
                (∀ a : Addr, (∀ id, a ≠ Addr.taskPda id) →
                  (claimTasks fk rest
                    (update σ (Addr.taskPda id₀)
                      (.task { t with is_claimed := true })) total' mo').1 a =
                    σ a) ∧
                (∀ id, (claimTasks fk rest
                    (update σ (Addr.taskPda id₀)
                      (.task { t with is_claimed := true })) total' mo').1
                      (Addr.taskPda id) = σ (Addr.taskPda id) ∨
                  ∃ t', σ (Addr.taskPda id) = some (.task t') ∧
                    t'.is_claimed = false ∧
                    (claimTasks fk rest
                      (update σ (Addr.taskPda id₀)
                        (.task { t with is_claimed := true })) total' mo').1
                        (Addr.taskPda id) =
                      some (.task { t' with is_claimed := true })) := by
              intro total' mo'
              obtain ⟨ha, hb⟩ := ih
                (update σ (Addr.taskPda id₀) (.task { t with is_claimed := true }))
                total' mo'
              constructor
              · intro a hna
                rw [ha a hna, update_ne _ _ _ (hna id₀)]
              · intro id
                by_cases hid : id = id₀
                · subst hid
                  rcases hb id with h | ⟨t', ht', hcl', hres⟩
                  · right
                    refine ⟨t, hσ, hcl, ?_⟩
                    rw [h, update_same]
                  · rw [update_same] at ht'
                    exfalso
                    have : t' = { t with is_claimed := true } := by
                      injection ht' with h1
                      injection h1 with h2
                      exact h2.symm
                    rw [this] at hcl'
                    simp at hcl'
                · have hne : Addr.taskPda id ≠ Addr.taskPda id₀ :=
                    fun h => hid (Addr.taskPda.inj h)
                  rcases hb id with h | ⟨t', ht', hcl', hres⟩
                  · left
                    rw [h, update_ne _ _ _ hne]
                  · right
                    rw [update_ne _ _ _ hne] at ht'
                    exact ⟨t', ht', hcl', hres⟩
            split
            case h_1 m hmo =>
              split
              case isTrue => exact ⟨fun a _ => rfl, fun id => Or.inl rfl⟩
              case isFalse hm => exact key _ _
            case h_2 => exact key _ _

/-- The accumulated batch total stays below `2^64` (each step reduces
modulo `2^64`). -/
theorem claimTasks_total_lt (fk : Nat) (l : List String) (σ : Store)
    (total : Nat) (mo : Option Nat) (σ' : Store) (T : Nat) (mo' : Option Nat)
    (h : claimTasks fk l σ total mo = (σ', .ok (T, mo')))
    (ht : total < U64MOD) : T < U64MOD := by
  induction l generalizing σ total mo with
  | nil =>
    unfold claimTasks at h
    simp only [Prod.mk.injEq, Except.ok.injEq] at h
    obtain ⟨-, h2, -⟩ := h
    omega
  | cons id₀ rest ih =>
    unfold claimTasks at h
    split at h
    case h_2 => simp at h
    case h_1 t hσ =>
      split at h
      case isTrue => simp at h
      case isFalse hinit =>
        split at h
        case isTrue => simp at h
        case isFalse hfarm =>
          split at h
          case isTrue => simp at h
          case isFalse hclaim =>
            split at h
            case h_1 m₀ hmo =>
              split at h
              case isTrue => simp at h
              case isFalse hm => exact ih _ _ _ h (wadd_lt _ _)
            case h_2 => exact ih _ _ _ h (wadd_lt _ _)

/-- If the per-task loop succeeds with batch mint `m`, every processed id
refers (in the starting store) to an existing task record whose mint is `m`,
and an already-fixed batch mint equals `m`. -/
theorem claimTasks_mint (fk : Nat) (l : List String) (σ : Store)
    (total : Nat) (mo : Option Nat) (σ' : Store) (T m : Nat)
    (h : claimTasks fk l σ total mo = (σ', .ok (T, some m))) :
    (∀ m₀, mo = some m₀ → m₀ = m) ∧
    (∀ id ∈ l, ∃ t, σ (Addr.taskPda id) = some (.task t) ∧
      t.token_mint = m) := by
  induction l generalizing σ total mo with
  | nil =>
    unfold claimTasks at h
    simp only [Prod.mk.injEq, Except.ok.injEq] at h
    obtain ⟨-, -, h3⟩ := h
    refine ⟨fun m₀ hm₀ => ?_, by simp⟩
    rw [hm₀] at h3
    injection h3
  | cons id₀ rest ih =>
    unfold claimTasks at h
    split at h
    case h_2 => simp at h
    case h_1 t hσ =>
      split at h
      case isTrue => simp at h
      case isFalse hinit =>
        split at h
        case isTrue => simp at h
        case isFalse hfarm =>
          split at h
          case isTrue => simp at h
          case isFalse hclaim =>
            have transfer :
                ∀ (total' : Nat) (mo'' : Option Nat),
                  claimTasks fk rest
                    (update σ (Addr.taskPda id₀)
                      (.task { t with is_claimed := true })) total' mo'' =
                    (σ', .ok (T, some m)) →
                  t.token_mint = m →
                  ∀ id ∈ id₀ :: rest, ∃ t', σ (Addr.taskPda id) =
                    some (.task t') ∧ t'.token_mint = m := by
              intro total' mo'' hrec htm id hid
              rcases List.mem_cons.mp hid with he | hmem
              · subst he
                exact ⟨t, hσ, htm⟩
              · obtain ⟨-, ih2⟩ := ih _ _ _ hrec
                obtain ⟨t', ht', htm'⟩ := ih2 id hmem
                by_cases he : id = id₀
                · subst he
                  rw [update_same] at ht'
                  have : t' = { t with is_claimed := true } := by
                    injection ht' with h1
                    injection h1 with h2
                    exact h2.symm
                  refine ⟨t, hσ, ?_⟩
                  rw [this] at htm'
                  exact htm'
                · rw [update_ne _ _ _
                    (fun hh => he (Addr.taskPda.inj hh))] at ht'
                  exact ⟨t', ht', htm'⟩
            split at h
            case h_1 mstale m₀ =>
              split at h
              case isTrue => simp at h
              case isFalse hm =>
                obtain ⟨ih1, -⟩ := ih _ _ _ h
                have hm₀m : m₀ = m := ih1 m₀ rfl
                have htm : t.token_mint = m := by
                  have h5 : m₀ = t.token_mint := not_not.mp hm
                  omega
                refine ⟨fun m₁ hm₁ => ?_, transfer _ _ h htm⟩
                injection hm₁ with h1
                omega
            case h_2 mstale =>
              obtain ⟨ih1, -⟩ := ih _ _ _ h
              have htm : t.token_mint = m := ih1 _ rfl
              refine ⟨fun m₁ hm₁ => ?_, transfer _ _ h htm⟩
              cases hm₁

/-- An id whose record is already claimed in the starting store cannot occur
in a successfully processed batch. -/
theorem claimTasks_claimed_not_mem (fk : Nat) (l : List String) (σ : Store)
    (total : Nat) (mo : Option Nat) (σ' : Store) (out : Nat × Option Nat)
    (h : claimTasks fk l σ total mo = (σ', .ok out))
    (id : String) (t : TaskCompletionRecord)
    (hσ : σ (Addr.taskPda id) = some (.task t)) (hcl : t.is_claimed = true) :
    id ∉ l := by
  induction l generalizing σ total mo with
  | nil => simp
  | cons id₀ rest ih =>
    unfold claimTasks at h
    split at h
    case h_2 => simp at h
    case h_1 t₀ hσ₀ =>
      split at h
      case isTrue => simp at h
      case isFalse hinit =>
        split at h
        case isTrue => simp at h
        case isFalse hfarm =>
          split at h
          case isTrue => simp at h
          case isFalse hclaim =>
            have hne : id ≠ id₀ := by
              intro he
              subst he
              rw [hσ] at hσ₀
              have : t = t₀ := by
                injection hσ₀ with h1
                injection h1
              rw [← this] at hclaim
              exact hclaim hcl
            have hσ₂ : update σ (Addr.taskPda id₀)
                (.task { t₀ with is_claimed := true }) (Addr.taskPda id) =
                some (.task t) := by
              rw [update_ne _ _ _ (fun hh => hne (Addr.taskPda.inj hh))]
              exact hσ
            have key : ∀ (total' : Nat) (mo'' : Option Nat),
                claimTasks fk rest
                  (update σ (Addr.taskPda id₀)
                    (.task { t₀ with is_claimed := true })) total' mo'' =
                  (σ', .ok out) →
                id ∉ id₀ :: rest := by
              intro total' mo'' hrec hmem
              rcases List.mem_cons.mp hmem with he | hm
              · exact hne he
              · exact ih _ _ _ hrec hσ₂ hm
            split at h
            case h_1 m₀ hmo =>
              split at h
              case isTrue => simp at h
              case isFalse hm => exact key _ _ h
            case h_2 => exact key _ _ h

/-- A successfully processed batch has no duplicate task ids: processing an
id immediately marks its record claimed, so a second occurrence fails the
claim check. -/
theorem claimTasks_nodup (fk : Nat) (l : List String) (σ : Store)
    (total : Nat) (mo : Option Nat) (σ' : Store) (out : Nat × Option Nat)
    (h : claimTasks fk l σ total mo = (σ', .ok out)) : l.Nodup := by
  induction l generalizing σ total mo with
  | nil => simp
  | cons id₀ rest ih =>
    unfold claimTasks at h
    split at h
    case h_2 => simp at h
    case h_1 t₀ hσ₀ =>
      split at h
      case isTrue => simp at h
      case isFalse hinit =>
        split at h
        case isTrue => simp at h
        case isFalse hfarm =>
          split at h
          case isTrue => simp at h
          case isFalse hclaim =>
            have key : ∀ (total' : Nat) (mo'' : Option Nat),
                claimTasks fk rest
                  (update σ (Addr.taskPda id₀)
                    (.task { t₀ with is_claimed := true })) total' mo'' =
                  (σ', .ok out) →
                (id₀ :: rest).Nodup := by
              intro total' mo'' hrec
              have hnotmem : id₀ ∉ rest :=
                claimTasks_claimed_not_mem fk rest _ total' mo'' σ' out hrec
                  id₀ { t₀ with is_claimed := true } (update_same _ _ _) rfl
              exact List.nodup_cons.mpr ⟨hnotmem, ih _ _ _ hrec⟩
            split at h
            case h_1 m₀ hmo =>
              split at h
              case isTrue => simp at h
              case isFalse hm => exact key _ _ h
            case h_2 => exact key _ _ h

/-- Inversion of a successful guard prefix. -/
theorem withdrawGuards_ok_inv {σ : Store} {k1 k2 : Addr} {fk : Nat}
    {s : Bool} {e : Nat} {p : RewardPool} {fd : FarmerAccount}
    (h : withdrawGuards σ k1 k2 fk s e = .ok (p, fd)) :
    s = true ∧ k1 = Addr.poolPda ∧ k2 = Addr.farmerPda fk ∧
    σ Addr.poolPda = some (.pool p) ∧ p.is_initialized = true ∧
    p.is_paused = false ∧
    σ (Addr.farmerPda fk) = some (.farmer fd) ∧ fd.is_initialized = true ∧
    fd.farmer_address = fk ∧ fd.withdrawal_nonce = e := by
  unfold withdrawGuards at h
  split at h
  case isTrue => simp at h
  case isFalse hsig =>
    have hs : s = true := by revert hsig; cases s <;> simp
    split at h
    case h_2 => simp at h
    case h_1 p₀ hk1 =>
      split at h
      case isTrue => simp at h
      case isFalse hpinit =>
        split at h
        case isTrue => simp at h
        case isFalse hpause =>
          split at h
          case h_2 => simp at h
          case h_1 fd₀ hk2 =>
            split at h
            case isTrue => simp at h
            case isFalse hfinit =>
              split at h
              case isTrue => simp at h
              case isFalse hfaddr =>
                split at h
                case isTrue => simp at h
                case isFalse hnonce =>
                  split at h
                  case isTrue => simp at h
                  case isFalse hk1pda =>
                    split at h
                    case isTrue => simp at h
                    case isFalse hk2pda =>
                      have hpq : p₀ = p ∧ fd₀ = fd := by
                        injection h with h1
                        injection h1 with h2 h3
                        exact ⟨h2, h3⟩
                      obtain ⟨hp₀, hfd₀⟩ := hpq
                      subst hp₀
                      subst hfd₀
                      have hk1' : k1 = Addr.poolPda := not_not.mp hk1pda
                      have hk2' : k2 = Addr.farmerPda fk := not_not.mp hk2pda
                      rw [hk1'] at hk1
                      rw [hk2'] at hk2
                      refine ⟨hs, hk1', hk2', hk1, ?_, ?_, hk2, ?_, ?_, ?_⟩
                      · simpa using hpinit
                      · simpa using hpause
                      · simpa using hfinit
                      · exact not_not.mp hfaddr
                      · exact not_not.mp hnonce

/-- Inversion of a successful withdrawal tail. -/
theorem withdrawFinish_ok_inv {σ₁ : Store} {p : RewardPool}
    {fd : FarmerAccount} {k3 : Addr} {v ft tr : TokenAcct} {fk T : Nat}
    {mintOpt : Option Nat} {slot : Nat} {σ' : Store} {fa pf : Nat}
    (h : withdrawFinish σ₁ p fd k3 v ft tr fk T mintOpt slot =
      (σ', .ok (fa, pf))) :
    ∃ m : Nat,
      mintOpt = some m ∧ T ≠ 0 ∧ k3 = Addr.vaultPda m ∧
      v.mint = m ∧ ¬(v.amount < T) ∧ ft.mint = m ∧ tr.mint = m ∧
      pf = wmul T p.platform_fee_percentage / 100 ∧ fa = wsub T pf ∧
      σ' = update (update σ₁ Addr.poolPda (.pool { p with
          total_rewards_distributed := wadd p.total_rewards_distributed fa,
          total_platform_fees_collected :=
            wadd p.total_platform_fees_collected pf }))
        (Addr.farmerPda fk)
        (.farmer { fd with
          withdrawal_nonce := wadd fd.withdrawal_nonce 1,
          total_rewards_withdrawn := wadd fd.total_rewards_withdrawn T,
          last_withdrawal_slot := slot }) := by
  unfold withdrawFinish at h
  split at h
  case isTrue => simp at h
  case isFalse hT0 =>
    split at h
    case h_1 => simp at h
    case h_2 m =>
      split at h
      case isTrue => simp at h
      case isFalse hk3 =>
        split at h
        case isTrue => simp at h
        case isFalse hvm =>
          split at h
          case isTrue => simp at h
          case isFalse hvamt =>
            split at h
            case isTrue => simp at h
            case isFalse hftm =>
              split at h
              case isTrue => simp at h
              case isFalse htrm =>
                simp only [Prod.mk.injEq, Except.ok.injEq] at h
                obtain ⟨hst, hfa, hpf⟩ := h
                exact ⟨m, rfl, hT0, not_not.mp hk3, not_not.mp hvm, hvamt,
                  not_not.mp hftm, not_not.mp htrm, hpf.symm,
                  by rw [← hpf]; exact hfa.symm,
                  by rw [← hst, ← hfa, ← hpf]⟩

/-- Inversion of a successful withdrawal: every guard passed, the per-task
loop succeeded, and the final store is the loop's store with the pool and
ledger counters rewritten. -/
theorem withdraw_ok_inv {σ : Store} {k1 k2 k3 : Addr} {v ft tr : TokenAcct}
    {fk : Nat} {s : Bool} {l : List String} {e slot : Nat} {σ' : Store}
    {fa pf : Nat}
    (h : process_withdraw_rewards σ k1 k2 k3 v ft tr fk s l e slot =
      (σ', .ok (fa, pf))) :
    ∃ (p : RewardPool) (fd : FarmerAccount) (σ₁ : Store) (T m : Nat),
      s = true ∧ k1 = Addr.poolPda ∧ k2 = Addr.farmerPda fk ∧
      σ Addr.poolPda = some (.pool p) ∧ p.is_initialized = true ∧
      p.is_paused = false ∧
      σ (Addr.farmerPda fk) = some (.farmer fd) ∧ fd.is_initialized = true ∧
      fd.farmer_address = fk ∧ fd.withdrawal_nonce = e ∧
      claimTasks fk l σ 0 none = (σ₁, .ok (T, some m)) ∧ T ≠ 0 ∧
      k3 = Addr.vaultPda m ∧
      v.mint = m ∧ ¬(v.amount < T) ∧ ft.mint = m ∧ tr.mint = m ∧
      pf = wmul T p.platform_fee_percentage / 100 ∧ fa = wsub T pf ∧
      σ' = update (update σ₁ Addr.poolPda (.pool { p with
          total_rewards_distributed := wadd p.total_rewards_distributed fa,
          total_platform_fees_collected :=
            wadd p.total_platform_fees_collected pf }))
        (Addr.farmerPda fk)
        (.farmer { fd with
          withdrawal_nonce := wadd fd.withdrawal_nonce 1,
          total_rewards_withdrawn := wadd fd.total_rewards_withdrawn T,
          last_withdrawal_slot := slot }) := by
  unfold process_withdraw_rewards at h
  split at h
  case h_1 => simp at h
  case h_2 p fd hg =>
    split at h
    case h_1 σ₁ err hct => simp at h
    case h_2 σ₁ T mintOpt hct =>
      obtain ⟨m, hmo, hrest⟩ := withdrawFinish_ok_inv h
      obtain ⟨hs, hk1, hk2, hσp, hpinit, hpause, hσf, hfinit, hfaddr,
        hnonce⟩ := withdrawGuards_ok_inv hg
      subst hmo
      exact ⟨p, fd, σ₁, T, m, hs, hk1, hk2, hσp, hpinit, hpause, hσf,
        hfinit, hfaddr, hnonce, hct, hrest.1, hrest.2.1, hrest.2.2.1,
        hrest.2.2.2.1, hrest.2.2.2.2.1, hrest.2.2.2.2.2.1,
        hrest.2.2.2.2.2.2.1, hrest.2.2.2.2.2.2.2.1,
        hrest.2.2.2.2.2.2.2.2⟩

/-- The withdrawal tail either fails leaving its input store, or succeeds. -/
theorem withdrawFinish_store (σ₁ : Store) (p : RewardPool)
    (fd : FarmerAccount) (k3 : Addr) (v ft tr : TokenAcct) (fk T : Nat)
    (mintOpt : Option Nat) (slot : Nat) :
    (withdrawFinish σ₁ p fd k3 v ft tr fk T mintOpt slot).1 = σ₁ ∨
    isOkE (withdrawFinish σ₁ p fd k3 v ft tr fk T mintOpt slot).2 = true := by
  unfold withdrawFinish
  split
  case isTrue => exact Or.inl rfl
  case isFalse =>
    split
    case h_1 => exact Or.inl rfl
    case h_2 =>
      split
      case isTrue => exact Or.inl rfl
      case isFalse =>
        split
        case isTrue => exact Or.inl rfl
        case isFalse =>
          split
          case isTrue => exact Or.inl rfl
          case isFalse =>
            split
            case isTrue => exact Or.inl rfl
            case isFalse =>
              split
              case isTrue => exact Or.inl rfl
              case isFalse => exact Or.inr rfl

/-- On the withdrawal tail's success, the pool record ends up at the pool PDA
with its fee percentage unchanged. -/
theorem withdrawFinish_poolPda (σ₁ : Store) (p : RewardPool)
    (fd : FarmerAccount) (k3 : Addr) (v ft tr : TokenAcct) (fk T : Nat)
    (mintOpt : Option Nat) (slot : Nat) :
    (withdrawFinish σ₁ p fd k3 v ft tr fk T mintOpt slot).1 Addr.poolPda =
      σ₁ Addr.poolPda ∨
    ∃ p', (withdrawFinish σ₁ p fd k3 v ft tr fk T mintOpt slot).1
        Addr.poolPda = some (.pool p') ∧
      p'.platform_fee_percentage = p.platform_fee_percentage := by
  unfold withdrawFinish
  split
  case isTrue => exact Or.inl rfl
  case isFalse =>
    split
    case h_1 => exact Or.inl rfl
    case h_2 =>
      split
      case isTrue => exact Or.inl rfl
      case isFalse =>
        split
        case isTrue => exact Or.inl rfl
        case isFalse =>
          split
          case isTrue => exact Or.inl rfl
          case isFalse =>
            split
            case isTrue => exact Or.inl rfl
            case isFalse =>
              split
              case isTrue => exact Or.inl rfl
              case isFalse =>
                right
                exact ⟨{ p with
                    total_rewards_distributed :=
                      wadd p.total_rewards_distributed
                        (wsub T (wmul T p.platform_fee_percentage / 100)),
                    total_platform_fees_collected :=
                      wadd p.total_platform_fees_collected
                        (wmul T p.platform_fee_percentage / 100) }, rfl, rfl⟩

/-- On any failing withdrawal, the store the call leaves behind is either
the starting store (a guard failed) or the per-task loop's store (a later
check failed) — the pool and ledger writes only happen on success. -/
theorem withdraw_err_store {σ : Store} {k1 k2 k3 : Addr} {v ft tr : TokenAcct}
    {fk : Nat} {s : Bool} {l : List String} {e slot : Nat} {err : ProgErr}
    (h : (process_withdraw_rewards σ k1 k2 k3 v ft tr fk s l e slot).2 =
      .error err) :
    (process_withdraw_rewards σ k1 k2 k3 v ft tr fk s l e slot).1 = σ ∨
    (process_withdraw_rewards σ k1 k2 k3 v ft tr fk s l e slot).1 =
      (claimTasks fk l σ 0 none).1 := by
  unfold process_withdraw_rewards at h ⊢
  rcases hg : withdrawGuards σ k1 k2 fk s e with err₀ | ⟨p, fd⟩
  · exact Or.inl rfl
  · rcases hct : claimTasks fk l σ 0 none with ⟨σ₁, r⟩
    rcases r with err₁ | ⟨T, mo⟩
    · exact Or.inr rfl
    · rcases withdrawFinish_store σ₁ p fd k3 v ft tr fk T mo slot with
        hl | hr
      · exact Or.inr hl
      · exfalso
        rw [hg, hct] at h
        have h2 : (withdrawFinish σ₁ p fd k3 v ft tr fk T mo slot).2 =
            .error err := h
        rw [h2] at hr
        simp [isOkE] at hr

/-- The record tail either fails leaving its input store, or succeeds. -/
theorem recordFinish_cases (σ₁ : Store) (p : RewardPool) (fd : FarmerAccount)
    (fk mk : Nat) (tid pid : String) (amt slot : Nat) :
    (recordFinish σ₁ p fd fk mk tid pid amt slot).1 = σ₁ ∨
    (recordFinish σ₁ p fd fk mk tid pid amt slot).2 = .ok () := by
  unfold recordFinish
  split
  case isTrue => exact Or.inl rfl
  case isFalse => exact Or.inr rfl

/-- Inversion of a successful record tail: the task address was free and the
final store is the input store with pool, ledger and new task record
serialized. -/
theorem recordFinish_ok_inv {σ₁ : Store} {p : RewardPool}
    {fd : FarmerAccount} {fk mk : Nat} {tid pid : String} {amt slot : Nat}
    {σ' : Store}
    (h : recordFinish σ₁ p fd fk mk tid pid amt slot = (σ', .ok ())) :
    σ₁ (Addr.taskPda tid) = none ∧
    σ' = update (update (update σ₁ Addr.poolPda (.pool p))
        (Addr.farmerPda fk)
        (.farmer
          { fd with
            total_rewards_earned := wadd fd.total_rewards_earned amt }))
      (Addr.taskPda tid)
      (.task { is_initialized := true, task_id := tid, farmer_address := fk,
               pool_id := pid, reward_amount := amt, token_mint := mk,
               is_claimed := false, completion_slot := slot }) := by
  unfold recordFinish at h
  split at h
  case isTrue => simp at h
  case isFalse hocc =>
    simp only [Prod.mk.injEq] at h
    refine ⟨?_, h.1.symm⟩
    simpa using hocc

/-- Inversion of a successful task recording: every guard passed, the task
address was free, and the final store holds the re-saved pool, the updated
(or newly created) ledger and the new unclaimed task record. -/
theorem record_ok_inv {σ : Store} {k1 k2 k3 : Addr} {fk mk ak : Nat}
    {s : Bool} {tid pid : String} {amt slot : Nat} {σ' : Store}
    (h : process_record_task_completion σ k1 k2 k3 fk mk ak s tid pid amt
      slot = (σ', .ok ())) :
    ∃ (p : RewardPool) (fd : FarmerAccount),
      s = true ∧ k1 = Addr.poolPda ∧ k2 = Addr.farmerPda fk ∧
      k3 = Addr.taskPda tid ∧
      σ Addr.poolPda = some (.pool p) ∧ p.is_initialized = true ∧
      p.platform_authority = ak ∧ p.is_paused = false ∧
      ((σ (Addr.farmerPda fk) = none ∧
          fd = { is_initialized := true, farmer_address := fk,
                 withdrawal_nonce := 0, total_rewards_earned := 0,
                 total_rewards_withdrawn := 0, last_withdrawal_slot := 0 }) ∨
        (σ (Addr.farmerPda fk) = some (.farmer fd) ∧
          fd.is_initialized = true ∧ fd.farmer_address = fk)) ∧
      σ (Addr.taskPda tid) = none ∧
      σ' Addr.poolPda = some (.pool p) ∧
      σ' (Addr.farmerPda fk) = some (.farmer { fd with
        total_rewards_earned := wadd fd.total_rewards_earned amt }) ∧
      σ' (Addr.taskPda tid) = some (.task
        { is_initialized := true, task_id := tid, farmer_address := fk,
          pool_id := pid, reward_amount := amt, token_mint := mk,
          is_claimed := false, completion_slot := slot }) ∧
      (∀ a : Addr, a ≠ Addr.poolPda → a ≠ Addr.farmerPda fk →
        a ≠ Addr.taskPda tid → σ' a = σ a) := by
  unfold process_record_task_completion at h
  split at h
  case isTrue => simp at h
  case isFalse hsig =>
    have hs : s = true := by revert hsig; cases s <;> simp
    split at h
    case h_2 => simp at h
    case h_1 p hk1 =>
      split at h
      case isTrue => simp at h
      case isFalse hpinit =>
        split at h
        case isTrue => simp at h
        case isFalse hauth =>
          split at h
          case isTrue => simp at h
          case isFalse hpause =>
            split at h
            case isTrue => simp at h
            case isFalse hk1pda =>
              split at h
              case isTrue => simp at h
              case isFalse hk2pda =>
                split at h
                case isTrue => simp at h
                case isFalse hk3pda =>
                  have hk1' : k1 = Addr.poolPda := not_not.mp hk1pda
                  have hk2' : k2 = Addr.farmerPda fk := not_not.mp hk2pda
                  have hk3' : k3 = Addr.taskPda tid := not_not.mp hk3pda
                  rw [hk1'] at hk1
                  split at h
                  case h_1 hfnone =>
                    obtain ⟨hocc, hst⟩ := recordFinish_ok_inv h
                    rw [update_ne _ _ _ (by simp)] at hocc
                    refine ⟨p, _, hs, hk1', hk2', hk3', hk1, by simpa using
                      hpinit, not_not.mp hauth, by simpa using hpause,
                      Or.inl ⟨hfnone, rfl⟩, hocc, ?_, ?_, ?_, ?_⟩
                    · rw [hst]
                      rw [update_ne _ _ _ (by simp),
                        update_ne _ _ _ (by simp), update_same]
                    · rw [hst]
                      rw [update_ne _ _ _ (by simp), update_same]
                    · rw [hst, update_same]
                    · intro a ha1 ha2 ha3
                      rw [hst, update_ne _ _ _ ha3, update_ne _ _ _ ha2,
                        update_ne _ _ _ ha1, update_ne _ _ _ ha2]
                  case h_2 fd₀ hfd =>
                    split at h
                    case isTrue => simp at h
                    case isFalse hfinit =>
                      split at h
                      case isTrue => simp at h
                      case isFalse hfaddr =>
                        obtain ⟨hocc, hst⟩ := recordFinish_ok_inv h
                        refine ⟨p, fd₀, hs, hk1', hk2', hk3', hk1, by simpa
                          using hpinit, not_not.mp hauth, by simpa using
                          hpause, Or.inr ⟨hfd, by simpa using hfinit,
                          not_not.mp hfaddr⟩, hocc, ?_, ?_, ?_, ?_⟩
                        · rw [hst]
                          rw [update_ne _ _ _ (by simp),
                            update_ne _ _ _ (by simp), update_same]
                        · rw [hst]
                          rw [update_ne _ _ _ (by simp), update_same]
                        · rw [hst, update_same]
                        · intro a ha1 ha2 ha3
                          rw [hst, update_ne _ _ _ ha3, update_ne _ _ _ ha2,
                            update_ne _ _ _ ha1]
                  case h_3 => simp at h

/-- A task-recording call either leaves the store unchanged, or has only
allocated (zeroed) the ledger account before failing, or succeeds. -/
theorem record_store_cases (σ : Store) (k1 k2 k3 : Addr) (fk mk ak : Nat)
    (s : Bool) (tid pid : String) (amt slot : Nat) :
    (process_record_task_completion σ k1 k2 k3 fk mk ak s tid pid amt
      slot).1 = σ ∨
    (process_record_task_completion σ k1 k2 k3 fk mk ak s tid pid amt
      slot).1 = update σ (Addr.farmerPda fk)
        (.farmer { is_initialized := false, farmer_address := 0,
                   withdrawal_nonce := 0, total_rewards_earned := 0,
                   total_rewards_withdrawn := 0,
                   last_withdrawal_slot := 0 }) ∨
    (process_record_task_completion σ k1 k2 k3 fk mk ak s tid pid amt
      slot).2 = .ok () := by
  unfold process_record_task_completion
  split
  case isTrue => exact Or.inl rfl
  case isFalse =>
    split
    case h_2 => exact Or.inl rfl
    case h_1 p hk1 =>
      split
      case isTrue => exact Or.inl rfl
      case isFalse =>
        split
        case isTrue => exact Or.inl rfl
        case isFalse =>
          split
          case isTrue => exact Or.inl rfl
          case isFalse =>
            split
            case isTrue => exact Or.inl rfl
            case isFalse =>
              split
              case isTrue => exact Or.inl rfl
              case isFalse =>
                split
                case isTrue => exact Or.inl rfl
                case isFalse =>
                  split
                  case h_1 hfnone =>
                    rcases recordFinish_cases
                      (update σ (Addr.farmerPda fk)
                        (.farmer
                          { is_initialized := false,
                            farmer_address := 0, withdrawal_nonce := 0,
                            total_rewards_earned := 0,
                            total_rewards_withdrawn := 0,
                            last_withdrawal_slot := 0 })) p
                      { is_initialized := true, farmer_address := fk,
                        withdrawal_nonce := 0, total_rewards_earned := 0,
                        total_rewards_withdrawn := 0,
                        last_withdrawal_slot := 0 }
                      fk mk tid pid amt slot with hl | hok
                    · exact Or.inr (Or.inl hl)
                    · exact Or.inr (Or.inr hok)
                  case h_2 fd₀ hfd =>
                    split
                    case isTrue => exact Or.inl rfl
                    case isFalse =>
                      split
                      case isTrue => exact Or.inl rfl
                      case isFalse =>
                        rcases recordFinish_cases σ p fd₀ fk mk tid pid amt
                          slot with hl | hok
                        · exact Or.inl hl
                        · exact Or.inr (Or.inr hok)
                  case h_3 => exact Or.inl rfl

/-- A task-recording call never changes the pool-config account. -/
theorem record_poolPda (σ : Store) (k1 k2 k3 : Addr) (fk mk ak : Nat)
    (s : Bool) (tid pid : String) (amt slot : Nat) :
    (process_record_task_completion σ k1 k2 k3 fk mk ak s tid pid amt
      slot).1 Addr.poolPda = σ Addr.poolPda := by
  rcases record_store_cases σ k1 k2 k3 fk mk ak s tid pid amt slot with
    h | h | hok
  · rw [h]
  · rw [h, update_ne _ _ _ (by simp)]
  · have hr : process_record_task_completion σ k1 k2 k3 fk mk ak s tid pid
        amt slot =
        ((process_record_task_completion σ k1 k2 k3 fk mk ak s tid pid amt
          slot).1, .ok ()) := by
      rw [← hok]
    obtain ⟨p, fd, -, -, -, -, hσp, -, -, -, -, -, hσ'p, -⟩ :=
      record_ok_inv hr
    rw [hσ'p, hσp]

/-- A pause toggle either leaves the store unchanged or rewrites the pool
record with only `is_paused` changed. -/
theorem setPaused_cases (σ : Store) (k : Addr) (a : Nat) (s b : Bool) :
    (process_set_paused σ k a s b).1 = σ ∨
    ∃ p, σ Addr.poolPda = some (.pool p) ∧
      p.is_initialized = true ∧ p.platform_authority = a ∧
      process_set_paused σ k a s b =
        (update σ Addr.poolPda (.pool { p with is_paused := b }), .ok ()) := by
  unfold process_set_paused
  split
  case isTrue => exact Or.inl rfl
  case isFalse =>
    split
    case isTrue => exact Or.inl rfl
    case isFalse =>
      split
      case h_2 => exact Or.inl rfl
      case h_1 p hσp =>
        split
        case isTrue => exact Or.inl rfl
        case isFalse hpinit =>
          split
          case isTrue => exact Or.inl rfl
          case isFalse hauth =>
            exact Or.inr ⟨p, hσp, by simpa using hpinit,
              not_not.mp hauth, rfl⟩

/-- A fee update either leaves the store unchanged or rewrites the pool
record with a fee percentage of at most 100. -/
theorem updateFee_cases (σ : Store) (k : Addr) (a : Nat) (s : Bool)
    (fee : Nat) :
    (process_update_platform_fee σ k a s fee).1 = σ ∨
    (fee ≤ 100 ∧ ∃ p, σ Addr.poolPda = some (.pool p) ∧
      p.is_initialized = true ∧ p.platform_authority = a ∧
      process_update_platform_fee σ k a s fee =
        (update σ Addr.poolPda
          (.pool { p with platform_fee_percentage := fee }), .ok ())) := by
  unfold process_update_platform_fee
  split
  case isTrue => exact Or.inl rfl
  case isFalse hfee =>
    split
    case isTrue => exact Or.inl rfl
    case isFalse =>
      split
      case isTrue => exact Or.inl rfl
      case isFalse =>
        split
        case h_2 => exact Or.inl rfl
        case h_1 p hσp =>
          split
          case isTrue => exact Or.inl rfl
          case isFalse hpinit =>
            split
            case isTrue => exact Or.inl rfl
            case isFalse hauth =>
              exact Or.inr ⟨by omega, p, hσp, by simpa using hpinit,
                not_not.mp hauth, rfl⟩

/-- Pool initialization either leaves the store unchanged or writes a fresh
pool record with a fee percentage of at most 100 at a previously free pool
address. -/
theorem init_cases (σ : Store) (k : Addr) (a : Nat) (s : Bool) (fee : Nat) :
    (process_initialize_reward_pool σ k a s fee).1 = σ ∨
    (fee ≤ 100 ∧ σ Addr.poolPda = none ∧
      process_initialize_reward_pool σ k a s fee =
        (update σ Addr.poolPda (.pool
          { is_initialized := true, platform_authority := a,
            platform_fee_percentage := fee, total_rewards_distributed := 0,
            total_platform_fees_collected := 0, is_paused := false }),
         .ok ())) := by
  unfold process_initialize_reward_pool
  split
  case isTrue => exact Or.inl rfl
  case isFalse hfee =>
    split
    case isTrue => exact Or.inl rfl
    case isFalse =>
      split
      case isTrue => exact Or.inl rfl
      case isFalse =>
        split
        case isTrue => exact Or.inl rfl
        case isFalse hocc =>
          exact Or.inr ⟨by omega, by simpa using hocc, rfl⟩

/-- A withdrawal never changes the fee percentage stored at the pool
address. -/
theorem withdraw_poolPda (σ : Store) (k1 k2 k3 : Addr) (v ft tr : TokenAcct)
    (fk : Nat) (s : Bool) (l : List String) (e slot : Nat) :
    ∀ q : RewardPool,
      (process_withdraw_rewards σ k1 k2 k3 v ft tr fk s l e slot).1
        Addr.poolPda = some (.pool q) →
      ∃ p, σ Addr.poolPda = some (.pool p) ∧
        q.platform_fee_percentage = p.platform_fee_percentage := by
  intro q hq
  rcases hres : (process_withdraw_rewards σ k1 k2 k3 v ft tr fk s l e
      slot).2 with err | ⟨fa, pf⟩
  · rcases withdraw_err_store hres with hl | hl
    · rw [hl] at hq
      exact ⟨q, hq, rfl⟩
    · rw [hl] at hq
      rw [(claimTasks_store fk l σ 0 none).1 Addr.poolPda
        (fun id => by simp)] at hq
      exact ⟨q, hq, rfl⟩
  · have hr : process_withdraw_rewards σ k1 k2 k3 v ft tr fk s l e slot =
        ((process_withdraw_rewards σ k1 k2 k3 v ft tr fk s l e slot).1,
          .ok (fa, pf)) := by
      rw [← hres]
    obtain ⟨p, fd, σ₁, T, m, -, -, -, hσp, -, -, -, -, -, -, hct, -, -, -,
      -, -, -, -, -, hst⟩ := withdraw_ok_inv hr
    rw [hst, update_ne _ _ _ (by simp), update_same] at hq
    refine ⟨p, hσp, ?_⟩
    injection hq with h1
    injection h1 with h2
    rw [← h2]

/-- C8: In every reachable state the stored `feePercentage` satisfies
`0 ≤ feePercentage ≤ 100`: Initialize fails with `InvalidFeePercentage` when
given a percentage above 100, UpdatePlatformFee rejects a percentage above
100, and no other operation changes the field. -/
theorem C8_fee_bound :
    (∀ σ : Store, Reachable σ → PoolFeeOK σ) ∧
    (∀ (σ : Store) (k : Addr) (a : Nat) (s : Bool) (fee : Nat), fee > 100 →
      process_initialize_reward_pool σ k a s fee =
        (σ, .error (.Custom .InvalidFeePercentage))) ∧
    (∀ (σ : Store) (k : Addr) (a : Nat) (s : Bool) (fee : Nat), fee > 100 →
      process_update_platform_fee σ k a s fee =
        (σ, .error (.Custom .InvalidFeePercentage))) := by
  refine ⟨?_, ?_, ?_⟩
  · intro σ hreach
    induction hreach with
    | base =>
      intro p hp
      simp [emptyStore] at hp
    | step o hprev ih =>
      rename_i σ₀
      cases o with
      | initPool k a s fee =>
        intro q hq
        simp only [applyOp] at hq
        rcases init_cases σ₀ k a s fee with hl | ⟨hfee, -, heq⟩
        · rw [hl] at hq
          exact ih q hq
        · rw [show (process_initialize_reward_pool σ₀ k a s fee).1 =
            update σ₀ Addr.poolPda (.pool
              { is_initialized := true, platform_authority := a,
                platform_fee_percentage := fee,
                total_rewards_distributed := 0,
                total_platform_fees_collected := 0, is_paused := false })
            from by rw [heq], update_same] at hq
          injection hq with h1
          injection h1 with h2
          rw [← h2]
          exact hfee
      | recordTask k1 k2 k3 fk mk ak s tid pid amt slot =>
        intro q hq
        simp only [applyOp] at hq
        rw [record_poolPda σ₀ k1 k2 k3 fk mk ak s tid pid amt slot] at hq
        exact ih q hq
      | withdraw k1 k2 k3 v ft tr fk s l e slot =>
        intro q hq
        simp only [applyOp] at hq
        obtain ⟨p, hσp, hpct⟩ :=
          withdraw_poolPda σ₀ k1 k2 k3 v ft tr fk s l e slot q hq
        rw [hpct]
        exact ih p hσp
      | setPaused k a s b =>
        intro q hq
        simp only [applyOp] at hq
        rcases setPaused_cases σ₀ k a s b with hl | ⟨p, hσp, -, -, heq⟩
        · rw [hl] at hq
          exact ih q hq
        · rw [show (process_set_paused σ₀ k a s b).1 =
            update σ₀ Addr.poolPda (.pool { p with is_paused := b })
            from by rw [heq], update_same] at hq
          injection hq with h1
          injection h1 with h2
          rw [← h2]
          exact ih p hσp
      | updateFee k a s fee =>
        intro q hq
        simp only [applyOp] at hq
        rcases updateFee_cases σ₀ k a s fee with hl | ⟨hfee, p, hσp, -, -, heq⟩
        · rw [hl] at hq
          exact ih q hq
        · rw [show (process_update_platform_fee σ₀ k a s fee).1 =
            update σ₀ Addr.poolPda
              (.pool { p with platform_fee_percentage := fee })
            from by rw [heq], update_same] at hq
          injection hq with h1
          injection h1 with h2
          rw [← h2]
          exact hfee
  · intro σ k a s fee hfee
    unfold process_initialize_reward_pool
    rw [if_pos hfee]
  · intro σ k a s fee hfee
    unfold process_update_platform_fee
    rw [if_pos hfee]

/-- Witness for C8 at concrete inputs: the invariant holds in the store
reached by initializing the pool with a 10% fee from the empty store, and a
151% update on `storeA` is rejected unchanged. -/
theorem C8_fee_bound_witness :
    PoolFeeOK (applyOp (.initPool Addr.poolPda 50 true 10) emptyStore) ∧
    process_update_platform_fee storeA Addr.poolPda 50 true 151 =
      (storeA, .error (.Custom .InvalidFeePercentage)) :=
  ⟨C8_fee_bound.1 _ (Reachable.step _ Reachable.base),
   C8_fee_bound.2.2 storeA Addr.poolPda 50 true 151 (by decide)⟩

/-- C1 (amended): when any task of a WithdrawRewards batch fails validation,
the call errors and no PoolConfig or FarmerLedger counter changes (those are
written only after all checks), but claim-flag mutations are NOT staged: each
processed task record is serialized with `claimed = true` immediately, so
tasks validated before the failing one remain marked claimed in the record
store when the call returns its error, and atomicity is provided only by the
surrounding runtime's transaction rollback. -/
theorem C1_error_effects (σ : Store) (k1 k2 k3 : Addr) (v ft tr : TokenAcct)
    (fk : Nat) (s : Bool) (l : List String) (e slot : Nat) (err : ProgErr)
    (h : (process_withdraw_rewards σ k1 k2 k3 v ft tr fk s l e slot).2 =
      .error err) :
    (process_withdraw_rewards σ k1 k2 k3 v ft tr fk s l e slot).1
      Addr.poolPda = σ Addr.poolPda ∧
    (∀ k, (process_withdraw_rewards σ k1 k2 k3 v ft tr fk s l e slot).1
      (Addr.farmerPda k) = σ (Addr.farmerPda k)) ∧
    (∀ m, (process_withdraw_rewards σ k1 k2 k3 v ft tr fk s l e slot).1
      (Addr.vaultPda m) = σ (Addr.vaultPda m)) ∧
    (∀ u, (process_withdraw_rewards σ k1 k2 k3 v ft tr fk s l e slot).1
      (Addr.user u) = σ (Addr.user u)) ∧
    (∀ id, (process_withdraw_rewards σ k1 k2 k3 v ft tr fk s l e slot).1
        (Addr.taskPda id) = σ (Addr.taskPda id) ∨
      ∃ t, σ (Addr.taskPda id) = some (.task t) ∧ t.is_claimed = false ∧
        (process_withdraw_rewards σ k1 k2 k3 v ft tr fk s l e slot).1
          (Addr.taskPda id) = some (.task { t with is_claimed := true })) := by
  obtain ⟨ha, hb⟩ := claimTasks_store fk l σ 0 none
  rcases withdraw_err_store h with hl | hl
  · rw [hl]
    exact ⟨rfl, fun k => rfl, fun m => rfl, fun u => rfl,
      fun id => Or.inl rfl⟩
  · rw [hl]
    exact ⟨ha _ (fun id => by simp), fun k => ha _ (fun id => by simp),
      fun m => ha _ (fun id => by simp), fun u => ha _ (fun id => by simp),
      fun id => hb id⟩

/-- Witness for C1: the theorem applied to the concrete failing batch
`["t1", "t2"]` (with "t2" unrecorded) on `storeA`. -/
theorem C1_error_effects_witness :
    (process_withdraw_rewards storeA .poolPda (.farmerPda 7) (.vaultPda 3)
      ⟨3, 1000⟩ ⟨3, 0⟩ ⟨3, 0⟩ 7 true ["t1", "t2"] 0 5).1 Addr.poolPda =
      storeA Addr.poolPda :=
  (C1_error_effects storeA .poolPda (.farmerPda 7) (.vaultPda 3)
    ⟨3, 1000⟩ ⟨3, 0⟩ ⟨3, 0⟩ 7 true ["t1", "t2"] 0 5
    (.Custom .TaskNotFound) rfl).1

/-- Counterexample to C1 as stated: on `storeA`, withdrawing
`["t1", "t2"]` fails with TaskNotFound (task "t2" has no record), yet the
record of "t1" — unclaimed before the call — is already marked claimed in
the store the call leaves behind: the claim-flag mutations are not staged. -/
theorem C1_eager_claim_cex :
    (process_withdraw_rewards storeA .poolPda (.farmerPda 7) (.vaultPda 3)
      ⟨3, 1000⟩ ⟨3, 0⟩ ⟨3, 0⟩ 7 true ["t1", "t2"] 0 5).2 =
      .error (.Custom .TaskNotFound) ∧
    storeA (Addr.taskPda "t1") = some (.task taskA) ∧
    taskA.is_claimed = false ∧
    (process_withdraw_rewards storeA .poolPda (.farmerPda 7) (.vaultPda 3)
      ⟨3, 1000⟩ ⟨3, 0⟩ ⟨3, 0⟩ 7 true ["t1", "t2"] 0 5).1
      (Addr.taskPda "t1") = some (.task { taskA with is_claimed := true }) :=
  ⟨rfl, rfl, rfl, rfl⟩

/-- C2 (amended): on a successful WithdrawRewards call the stored
withdrawal nonce becomes `(old + 1) mod 2^64` — exactly `old + 1` whenever
that sum stays below `2^64`, and `0` when the unchecked increment wraps at
`u64::MAX`; a call whose expected nonce differs from the stored nonce always
fails before any write and leaves the whole store unchanged. -/
theorem C2_nonce (σ : Store) (k1 k2 k3 : Addr) (v ft tr : TokenAcct)
    (fk : Nat) (s : Bool) (l : List String) (e slot : Nat) :
    (∀ fa pf,
      (process_withdraw_rewards σ k1 k2 k3 v ft tr fk s l e slot).2 =
        .ok (fa, pf) →
      ∃ fd fd', σ (Addr.farmerPda fk) = some (.farmer fd) ∧
        fd.withdrawal_nonce = e ∧
        (process_withdraw_rewards σ k1 k2 k3 v ft tr fk s l e slot).1
          (Addr.farmerPda fk) = some (.farmer fd') ∧
        fd'.withdrawal_nonce = (fd.withdrawal_nonce + 1) % U64MOD ∧
        (fd.withdrawal_nonce + 1 < U64MOD →
          fd'.withdrawal_nonce = fd.withdrawal_nonce + 1)) ∧
    (∀ fd, σ (Addr.farmerPda fk) = some (.farmer fd) →
      fd.withdrawal_nonce ≠ e →
      isOkE (process_withdraw_rewards σ k1 k2 k3 v ft tr fk s l e slot).2 =
        false ∧
      (process_withdraw_rewards σ k1 k2 k3 v ft tr fk s l e slot).1 = σ) := by
  constructor
  · intro fa pf hok
    have hr : process_withdraw_rewards σ k1 k2 k3 v ft tr fk s l e slot =
        ((process_withdraw_rewards σ k1 k2 k3 v ft tr fk s l e slot).1,
          .ok (fa, pf)) := by
      rw [← hok]
    obtain ⟨p, fd, σ₁, T, m, -, -, -, -, -, -, hσf, -, -, hnonce, -, -, -,
      -, -, -, -, -, -, hst⟩ := withdraw_ok_inv hr
    refine ⟨fd, { fd with
        withdrawal_nonce := wadd fd.withdrawal_nonce 1,
        total_rewards_withdrawn := wadd fd.total_rewards_withdrawn T,
        last_withdrawal_slot := slot },
      hσf, hnonce, ?_, rfl, fun hlt => wadd_eq_of_lt hlt⟩
    rw [hst, update_same]
  · intro fd hfd hne
    rcases hg : withdrawGuards σ k1 k2 fk s e with err | ⟨p, fd₀⟩
    · have hres : process_withdraw_rewards σ k1 k2 k3 v ft tr fk s l e
          slot = (σ, .error err) := by
        unfold process_withdraw_rewards
        rw [hg]
      rw [hres]
      exact ⟨rfl, rfl⟩
    · exfalso
      obtain ⟨-, -, -, -, -, -, hσf, -, -, hnonce⟩ :=
        withdrawGuards_ok_inv hg
      rw [hfd] at hσf
      have hfd0 : fd = fd₀ := by
        injection hσf with h1
        injection h1
      rw [← hfd0] at hnonce
      exact hne hnonce

/-- Witness for C2: the success part applied to the Scenario-A withdrawal
on `storeA`, and the mismatch part applied to `storeA` with a stale expected
nonce of 99. -/
theorem C2_nonce_witness :
    (∃ fd fd', storeA (Addr.farmerPda 7) = some (.farmer fd) ∧
      fd.withdrawal_nonce = 0 ∧
      (process_withdraw_rewards storeA .poolPda (.farmerPda 7) (.vaultPda 3)
        ⟨3, 1000⟩ ⟨3, 0⟩ ⟨3, 0⟩ 7 true ["t1"] 0 5).1 (Addr.farmerPda 7) =
        some (.farmer fd') ∧
      fd'.withdrawal_nonce = (fd.withdrawal_nonce + 1) % U64MOD ∧
      (fd.withdrawal_nonce + 1 < U64MOD →
        fd'.withdrawal_nonce = fd.withdrawal_nonce + 1)) ∧
    (isOkE (process_withdraw_rewards storeA .poolPda (.farmerPda 7)
        (.vaultPda 3) ⟨3, 1000⟩ ⟨3, 0⟩ ⟨3, 0⟩ 7 true ["t1"] 99 5).2 =
      false ∧
     (process_withdraw_rewards storeA .poolPda (.farmerPda 7) (.vaultPda 3)
        ⟨3, 1000⟩ ⟨3, 0⟩ ⟨3, 0⟩ 7 true ["t1"] 99 5).1 = storeA) :=
  ⟨(C2_nonce storeA .poolPda (.farmerPda 7) (.vaultPda 3) ⟨3, 1000⟩ ⟨3, 0⟩
      ⟨3, 0⟩ 7 true ["t1"] 0 5).1 900 100 rfl,
   (C2_nonce storeA .poolPda (.farmerPda 7) (.vaultPda 3) ⟨3, 1000⟩ ⟨3, 0⟩
      ⟨3, 0⟩ 7 true ["t1"] 99 5).2 farmerA rfl (by decide)⟩

/-- Counterexample to C2 as stated: with the stored nonce at `u64::MAX`, a
successful withdrawal leaves the nonce at 0, not at stored-plus-one — the
unchecked `+= 1` wraps. -/
theorem C2_nonce_cex :
    (process_withdraw_rewards storeMax .poolPda (.farmerPda 7) (.vaultPda 3)
      ⟨3, 1000⟩ ⟨3, 0⟩ ⟨3, 0⟩ 7 true ["t1"] 18446744073709551615 5).2 =
      .ok (900, 100) ∧
    storeMax (Addr.farmerPda 7) = some (.farmer farmerMax) ∧
    farmerMax.withdrawal_nonce = 18446744073709551615 ∧
    (process_withdraw_rewards storeMax .poolPda (.farmerPda 7) (.vaultPda 3)
      ⟨3, 1000⟩ ⟨3, 0⟩ ⟨3, 0⟩ 7 true ["t1"] 18446744073709551615 5).1
      (Addr.farmerPda 7) =
      some (.farmer { farmerMax with
                      withdrawal_nonce := 0,
                      total_rewards_withdrawn := 1000,
                      last_withdrawal_slot := 5 }) ∧
    (0 : Nat) ≠ 18446744073709551615 + 1 :=
  ⟨rfl, rfl, rfl, rfl, by decide⟩

/-- C3 (amended): the accrual and withdrawal counters are updated with plain
(unchecked) u64 additions that wrap modulo `2^64` in the deployed build; the
program's error type has no Overflow variant and no operation aborts on
overflow.  On a successful RecordTaskCompletion the ledger's earned total
becomes `(old + reward) mod 2^64`; on a successful WithdrawRewards the
nonce, withdrawn, distributed and fee counters are likewise wrapping sums. -/
theorem C3_unchecked_add :
    (∀ (σ : Store) (k1 k2 k3 : Addr) (fk mk ak : Nat) (s : Bool)
      (tid pid : String) (amt slot : Nat) (σ' : Store),
      process_record_task_completion σ k1 k2 k3 fk mk ak s tid pid amt
        slot = (σ', .ok ()) →
      ∃ fd : FarmerAccount,
        ((σ (Addr.farmerPda fk) = none ∧ fd.total_rewards_earned = 0) ∨
          σ (Addr.farmerPda fk) = some (.farmer fd)) ∧
        σ' (Addr.farmerPda fk) = some (.farmer { fd with
          total_rewards_earned :=
            (fd.total_rewards_earned + amt) % U64MOD })) ∧
    (∀ (σ : Store) (k1 k2 k3 : Addr) (v ft tr : TokenAcct) (fk : Nat)
      (s : Bool) (l : List String) (e slot fa pf : Nat),
      (process_withdraw_rewards σ k1 k2 k3 v ft tr fk s l e slot).2 =
        .ok (fa, pf) →
      ∃ (p : RewardPool) (fd : FarmerAccount) (T : Nat),
        σ Addr.poolPda = some (.pool p) ∧
        σ (Addr.farmerPda fk) = some (.farmer fd) ∧
        (process_withdraw_rewards σ k1 k2 k3 v ft tr fk s l e slot).1
          Addr.poolPda = some (.pool { p with
            total_rewards_distributed :=
              (p.total_rewards_distributed + fa) % U64MOD,
            total_platform_fees_collected :=
              (p.total_platform_fees_collected + pf) % U64MOD }) ∧
        (process_withdraw_rewards σ k1 k2 k3 v ft tr fk s l e slot).1
          (Addr.farmerPda fk) = some (.farmer { fd with
            withdrawal_nonce := (fd.withdrawal_nonce + 1) % U64MOD,
            total_rewards_withdrawn :=
              (fd.total_rewards_withdrawn + T) % U64MOD,
            last_withdrawal_slot := slot })) := by
  constructor
  · intro σ k1 k2 k3 fk mk ak s tid pid amt slot σ' h
    obtain ⟨p, fd, -, -, -, -, -, -, -, -, hfd, -, -, hσ'f, -⟩ :=
      record_ok_inv h
    refine ⟨fd, ?_, hσ'f⟩
    rcases hfd with ⟨hnone, hfresh⟩ | ⟨hsome, -⟩
    · exact Or.inl ⟨hnone, by rw [hfresh]⟩
    · exact Or.inr hsome
  · intro σ k1 k2 k3 v ft tr fk s l e slot fa pf hok
    have hr : process_withdraw_rewards σ k1 k2 k3 v ft tr fk s l e slot =
        ((process_withdraw_rewards σ k1 k2 k3 v ft tr fk s l e slot).1,
          .ok (fa, pf)) := by
      rw [← hok]
    obtain ⟨p, fd, σ₁, T, m, -, -, -, hσp, -, -, hσf, -, -, -, -, -, -, -,
      -, -, -, -, -, hst⟩ := withdraw_ok_inv hr
    refine ⟨p, fd, T, hσp, hσf, ?_, ?_⟩
    · rw [hst, update_ne _ _ _ (by simp), update_same]
      rfl
    · rw [hst, update_same]
      rfl

/-- Witness for C3: the record part applied to `storeHigh`, whose ledger
sits at `u64::MAX` earned, with a reward of 1 — the call succeeds and the
counter wraps — and the withdrawal part applied to the Scenario-A
withdrawal on `storeA`. -/
theorem C3_unchecked_add_witness :
    (∃ fd : FarmerAccount,
      ((storeHigh (Addr.farmerPda 7) = none ∧
          fd.total_rewards_earned = 0) ∨
        storeHigh (Addr.farmerPda 7) = some (.farmer fd)) ∧
      (process_record_task_completion storeHigh .poolPda (.farmerPda 7)
        (.taskPda "t9") 7 3 50 true "t9" "p1" 1 5).1 (Addr.farmerPda 7) =
        some (.farmer { fd with
          total_rewards_earned :=
            (fd.total_rewards_earned + 1) % U64MOD })) ∧
    (∃ (p : RewardPool) (fd : FarmerAccount) (T : Nat),
      storeA Addr.poolPda = some (.pool p) ∧
      storeA (Addr.farmerPda 7) = some (.farmer fd) ∧
      (process_withdraw_rewards storeA .poolPda (.farmerPda 7) (.vaultPda 3)
        ⟨3, 1000⟩ ⟨3, 0⟩ ⟨3, 0⟩ 7 true ["t1"] 0 5).1 Addr.poolPda =
        some (.pool { p with
          total_rewards_distributed :=
            (p.total_rewards_distributed + 900) % U64MOD,
          total_platform_fees_collected :=
            (p.total_platform_fees_collected + 100) % U64MOD }) ∧
      (process_withdraw_rewards storeA .poolPda (.farmerPda 7) (.vaultPda 3)
        ⟨3, 1000⟩ ⟨3, 0⟩ ⟨3, 0⟩ 7 true ["t1"] 0 5).1 (Addr.farmerPda 7) =
        some (.farmer { fd with
          withdrawal_nonce := (fd.withdrawal_nonce + 1) % U64MOD,
          total_rewards_withdrawn :=
            (fd.total_rewards_withdrawn + T) % U64MOD,
          last_withdrawal_slot := 5 })) :=
  ⟨C3_unchecked_add.1 storeHigh .poolPda (.farmerPda 7) (.taskPda "t9")
    7 3 50 true "t9" "p1" 1 5
    (process_record_task_completion storeHigh .poolPda (.farmerPda 7)
      (.taskPda "t9") 7 3 50 true "t9" "p1" 1 5).1 rfl,
   C3_unchecked_add.2 storeA .poolPda (.farmerPda 7) (.vaultPda 3)
    ⟨3, 1000⟩ ⟨3, 0⟩ ⟨3, 0⟩ 7 true ["t1"] 0 5 900 100 rfl⟩

/-- Counterexample to C3 as stated: recording a reward of 1 for a farmer
whose earned total is `u64::MAX` does not abort with an Overflow error — it
succeeds and the counter wraps to 0. -/
theorem C3_overflow_cex :
    (process_record_task_completion storeHigh .poolPda (.farmerPda 7)
      (.taskPda "t9") 7 3 50 true "t9" "p1" 1 5).2 = .ok () ∧
    storeHigh (Addr.farmerPda 7) = some (.farmer farmerHigh) ∧
    farmerHigh.total_rewards_earned = 18446744073709551615 ∧
    (process_record_task_completion storeHigh .poolPda (.farmerPda 7)
      (.taskPda "t9") 7 3 50 true "t9" "p1" 1 5).1 (Addr.farmerPda 7) =
      some (.farmer { farmerHigh with total_rewards_earned := 0 }) :=
  ⟨rfl, rfl, rfl, rfl⟩

/-- C4 (amended): on every successful WithdrawRewards call the fee sent to
the treasury is `floor(((total * feePercentage) mod 2^64) / 100)` — the
multiplication is unchecked u64 and can wrap — and the farmer amount is
`total - fee`; `farmerAmount + fee = total` holds always, and the fee equals
`floor(total * feePercentage / 100)` exactly whenever
`total * feePercentage < 2^64`. -/
theorem C4_fee_split (σ : Store) (k1 k2 k3 : Addr) (v ft tr : TokenAcct)
    (fk : Nat) (s : Bool) (l : List String) (e slot : Nat) (σ₁ : Store)
    (T m fa pf : Nat) (p : RewardPool)
    (hσp : σ Addr.poolPda = some (.pool p))
    (hpct : p.platform_fee_percentage ≤ 100)
    (hct : claimTasks fk l σ 0 none = (σ₁, .ok (T, some m)))
    (h : (process_withdraw_rewards σ k1 k2 k3 v ft tr fk s l e slot).2 =
      .ok (fa, pf)) :
    pf = (T * p.platform_fee_percentage) % U64MOD / 100 ∧
    fa = T - pf ∧ fa + pf = T ∧
    (T * p.platform_fee_percentage < U64MOD →
      pf = T * p.platform_fee_percentage / 100) := by
  have hr : process_withdraw_rewards σ k1 k2 k3 v ft tr fk s l e slot =
      ((process_withdraw_rewards σ k1 k2 k3 v ft tr fk s l e slot).1,
        .ok (fa, pf)) := by
    rw [← h]
  obtain ⟨p₀, fd, σ₁', T', m', -, -, -, hσp', -, -, -, -, -, -, hct', -, -,
    -, -, -, -, hpf, hfa, -⟩ := withdraw_ok_inv hr
  rw [hσp] at hσp'
  have hp₀ : p₀ = p := by
    injection hσp' with h1
    injection h1 with h2
    exact h2.symm
  subst hp₀
  rw [hct] at hct'
  have hT : T' = T := by
    injection hct' with h1 h2
    injection h2 with h3
    injection h3 with h4 h5
    exact h4.symm
  subst hT
  have hpf' : pf = (T' * p₀.platform_fee_percentage) % U64MOD / 100 := hpf
  have hTlt : T' < U64MOD :=
    claimTasks_total_lt fk l σ 0 none σ₁ T' (some m) hct (by decide)
  have hfee_le : pf ≤ T' := by
    rw [hpf]
    exact fee_le_total hTlt hpct
  have hfa' : fa = T' - pf := by
    rw [hfa]
    exact wsub_eq_of_le hfee_le hTlt
  refine ⟨hpf', hfa', by omega, fun hlt => ?_⟩
  rw [hpf', Nat.mod_eq_of_lt hlt]

/-- Witness for C4: the theorem applied to the Scenario-A withdrawal on
`storeA` (total 1000, fee percentage 10, transfers 900 and 100). -/
theorem C4_fee_split_witness :
    (100 : Nat) = (1000 * poolA.platform_fee_percentage) % U64MOD / 100 ∧
    (900 : Nat) = 1000 - 100 ∧ (900 : Nat) + 100 = 1000 ∧
    (1000 * poolA.platform_fee_percentage < U64MOD →
      (100 : Nat) = 1000 * poolA.platform_fee_percentage / 100) :=
  C4_fee_split storeA .poolPda (.farmerPda 7) (.vaultPda 3) ⟨3, 1000⟩
    ⟨3, 0⟩ ⟨3, 0⟩ 7 true ["t1"] 0 5
    (update storeA (Addr.taskPda "t1")
      (.task { taskA with is_claimed := true }))
    1000 3 900 100 poolA rfl (by decide) rfl rfl

/-- Counterexample to C4 as stated: with a 100% fee and a single task worth
`2^63`, the unchecked multiplication `total * feePercentage` wraps modulo
`2^64`, so the call succeeds sending a fee of 0 to the treasury although
`floor(total * feePercentage / 100) = 2^63 ≠ 0` (the farmer receives the
full total instead). -/
theorem C4_fee_split_cex :
    (claimTasks 7 ["t1"] storeBig 0 none).2 =
      .ok (9223372036854775808, some 3) ∧
    storeBig Addr.poolPda = some (.pool poolFull) ∧
    poolFull.platform_fee_percentage = 100 ∧
    (process_withdraw_rewards storeBig .poolPda (.farmerPda 7) (.vaultPda 3)
      ⟨3, 9223372036854775808⟩ ⟨3, 0⟩ ⟨3, 0⟩ 7 true ["t1"] 0 5).2 =
      .ok (9223372036854775808, 0) ∧
    9223372036854775808 * 100 / 100 ≠ (0 : Nat) :=
  ⟨rfl, rfl, rfl, rfl, by decide⟩

/-- C5: in every reachable state whose pool config is initialized and
paused, every RecordTaskCompletion call and every WithdrawRewards call
fails, while SetPaused and UpdatePlatformFee invoked by the stored authority
with valid arguments still succeed — so pausing is always reversible by the
authority. -/
theorem C5_pause_gate (σ : Store) (p : RewardPool)
    (hσp : σ Addr.poolPda = some (.pool p))
    (hinit : p.is_initialized = true) (hpaused : p.is_paused = true) :
    (∀ (k1 k2 k3 : Addr) (fk mk ak : Nat) (s : Bool) (tid pid : String)
      (amt slot : Nat),
      isOkE (process_record_task_completion σ k1 k2 k3 fk mk ak s tid pid
        amt slot).2 = false) ∧
    (∀ (k1 k2 k3 : Addr) (v ft tr : TokenAcct) (fk : Nat) (s : Bool)
      (l : List String) (e slot : Nat),
      isOkE (process_withdraw_rewards σ k1 k2 k3 v ft tr fk s l e slot).2 =
        false) ∧
    (∀ b, process_set_paused σ Addr.poolPda p.platform_authority true b =
      (update σ Addr.poolPda (.pool { p with is_paused := b }), .ok ())) ∧
    (∀ fee, fee ≤ 100 →
      process_update_platform_fee σ Addr.poolPda p.platform_authority true
        fee =
      (update σ Addr.poolPda
        (.pool { p with platform_fee_percentage := fee }), .ok ())) := by
  refine ⟨?_, ?_, ?_, ?_⟩
  · intro k1 k2 k3 fk mk ak s tid pid amt slot
    rcases hres : (process_record_task_completion σ k1 k2 k3 fk mk ak s tid
      pid amt slot).2 with err | ⟨⟩
    · rfl
    · exfalso
      have hr : process_record_task_completion σ k1 k2 k3 fk mk ak s tid
          pid amt slot =
          ((process_record_task_completion σ k1 k2 k3 fk mk ak s tid pid
            amt slot).1, .ok ()) := by
        rw [← hres]
      obtain ⟨p₀, fd, -, -, -, -, hσp', -, -, hpause, -⟩ := record_ok_inv hr
      rw [hσp] at hσp'
      have hp₀ : p₀ = p := by
        injection hσp' with h1
        injection h1 with h2
        exact h2.symm
      rw [hp₀, hpaused] at hpause
      cases hpause
  · intro k1 k2 k3 v ft tr fk s l e slot
    rcases hres : (process_withdraw_rewards σ k1 k2 k3 v ft tr fk s l e
      slot).2 with err | ⟨fa, pf⟩
    · rfl
    · exfalso
      have hr : process_withdraw_rewards σ k1 k2 k3 v ft tr fk s l e slot =
          ((process_withdraw_rewards σ k1 k2 k3 v ft tr fk s l e slot).1,
            .ok (fa, pf)) := by
        rw [← hres]
      obtain ⟨p₀, fd, σ₁, T, m, -, -, -, hσp', -, hpause, -⟩ :=
        withdraw_ok_inv hr
      rw [hσp] at hσp'
      have hp₀ : p₀ = p := by
        injection hσp' with h1
        injection h1 with h2
        exact h2.symm
      rw [hp₀, hpaused] at hpause
      cases hpause
  · intro b
    simp [process_set_paused, hσp, hinit]
  · intro fee hfee
    simp [process_update_platform_fee, hσp, hinit,
      show ¬(fee > 100) from by omega]

/-- Witness for C5: the theorem applied to `storePaused` — the paused pool
rejects a concrete task recording and a concrete withdrawal, while the
authority can still unpause and set the fee to 20. -/
theorem C5_pause_gate_witness :
    isOkE (process_record_task_completion storePaused .poolPda
      (.farmerPda 7) (.taskPda "t3") 7 3 50 true "t3" "p1" 10 5).2 =
      false ∧
    isOkE (process_withdraw_rewards storePaused .poolPda (.farmerPda 7)
      (.vaultPda 3) ⟨3, 1000⟩ ⟨3, 0⟩ ⟨3, 0⟩ 7 true ["t1"] 0 5).2 = false ∧
    process_set_paused storePaused Addr.poolPda
      poolPaused.platform_authority true false =
      (update storePaused Addr.poolPda
        (.pool { poolPaused with is_paused := false }), .ok ()) ∧
    process_update_platform_fee storePaused Addr.poolPda
      poolPaused.platform_authority true 20 =
      (update storePaused Addr.poolPda
        (.pool { poolPaused with platform_fee_percentage := 20 }),
       .ok ()) :=
  ⟨(C5_pause_gate storePaused poolPaused rfl rfl rfl).1 .poolPda
      (.farmerPda 7) (.taskPda "t3") 7 3 50 true "t3" "p1" 10 5,
   (C5_pause_gate storePaused poolPaused rfl rfl rfl).2.1 .poolPda
      (.farmerPda 7) (.vaultPda 3) ⟨3, 1000⟩ ⟨3, 0⟩ ⟨3, 0⟩ 7 true ["t1"]
      0 5,
   (C5_pause_gate storePaused poolPaused rfl rfl rfl).2.2.1 false,
   (C5_pause_gate storePaused poolPaused rfl rfl rfl).2.2.2 20 (by decide)⟩

/-- C6 (amended): a WithdrawRewards batch referencing two task records with
different asset (mint) ids always fails — the loop fixes the batch mint at
the first task and rejects a mismatch with the code's `InvalidArgument`
(its encoding of the spec's InconsistentAsset).  The mismatching record's
claimed flag is untouched, but records validated earlier in the batch have
already been marked claimed in the store at the time of failure (see the
counterexample). -/
theorem C6_inconsistent_mint (σ : Store) (k1 k2 k3 : Addr)
    (v ft tr : TokenAcct) (fk : Nat) (s : Bool) (l : List String)
    (e slot : Nat) (id1 id2 : String) (tA tB : TaskCompletionRecord)
    (h1 : id1 ∈ l) (h2 : id2 ∈ l)
    (ht1 : σ (Addr.taskPda id1) = some (.task tA))
    (ht2 : σ (Addr.taskPda id2) = some (.task tB))
    (hm : tA.token_mint ≠ tB.token_mint) :
    isOkE (process_withdraw_rewards σ k1 k2 k3 v ft tr fk s l e slot).2 =
      false := by
  rcases hres : (process_withdraw_rewards σ k1 k2 k3 v ft tr fk s l e
    slot).2 with err | ⟨fa, pf⟩
  · rfl
  · exfalso
    have hr : process_withdraw_rewards σ k1 k2 k3 v ft tr fk s l e slot =
        ((process_withdraw_rewards σ k1 k2 k3 v ft tr fk s l e slot).1,
          .ok (fa, pf)) := by
      rw [← hres]
    obtain ⟨p, fd, σ₁, T, m, -, -, -, -, -, -, -, -, -, -, hct, -⟩ :=
      withdraw_ok_inv hr
    obtain ⟨-, hall⟩ := claimTasks_mint fk l σ 0 none σ₁ T m hct
    obtain ⟨tA', htA', hmA⟩ := hall id1 h1
    obtain ⟨tB', htB', hmB⟩ := hall id2 h2
    rw [ht1] at htA'
    rw [ht2] at htB'
    have heA : tA = tA' := by
      injection htA' with h3
      injection h3
    have heB : tB = tB' := by
      injection htB' with h3
      injection h3
    rw [heA, heB, hmA, hmB] at hm
    exact hm rfl

/-- Witness for C6: the theorem applied to `storeD`, whose tasks "t1" and
"t2" carry mints 3 and 4. -/
theorem C6_inconsistent_mint_witness :
    isOkE (process_withdraw_rewards storeD .poolPda (.farmerPda 7)
      (.vaultPda 3) ⟨3, 2000⟩ ⟨3, 0⟩ ⟨3, 0⟩ 7 true ["t1", "t2"] 0 5).2 =
      false :=
  C6_inconsistent_mint storeD .poolPda (.farmerPda 7) (.vaultPda 3)
    ⟨3, 2000⟩ ⟨3, 0⟩ ⟨3, 0⟩ 7 true ["t1", "t2"] 0 5 "t1" "t2" taskA taskB4
    (by decide) (by decide) rfl rfl (by decide)

/-- Counterexample to C6 as stated: the mixed-mint batch `["t1", "t2"]` on
`storeD` fails with the code's `InvalidArgument`, and the second record is
untouched — but the first record, unclaimed before the call, is already
marked claimed in the store the call leaves behind, so "neither referenced
record's claimed flag changes" is false. -/
theorem C6_inconsistent_mint_cex :
    storeD (Addr.taskPda "t1") = some (.task taskA) ∧
    storeD (Addr.taskPda "t2") = some (.task taskB4) ∧
    taskA.token_mint ≠ taskB4.token_mint ∧
    taskA.is_claimed = false ∧
    (process_withdraw_rewards storeD .poolPda (.farmerPda 7) (.vaultPda 3)
      ⟨3, 2000⟩ ⟨3, 0⟩ ⟨3, 0⟩ 7 true ["t1", "t2"] 0 5).2 =
      .error .InvalidArgument ∧
    (process_withdraw_rewards storeD .poolPda (.farmerPda 7) (.vaultPda 3)
      ⟨3, 2000⟩ ⟨3, 0⟩ ⟨3, 0⟩ 7 true ["t1", "t2"] 0 5).1
      (Addr.taskPda "t1") =
      some (.task { taskA with is_claimed := true }) ∧
    (process_withdraw_rewards storeD .poolPda (.farmerPda 7) (.vaultPda 3)
      ⟨3, 2000⟩ ⟨3, 0⟩ ⟨3, 0⟩ 7 true ["t1", "t2"] 0 5).1
      (Addr.taskPda "t2") = some (.task taskB4) :=
  ⟨rfl, rfl, by decide, rfl, rfl, rfl, rfl⟩

/-- C7 (amended): a WithdrawRewards call with an empty taskIds list always
fails and leaves the store unchanged, but the error is `InvalidArgument`
(the zero-total check) only when the guards before the loop pass — in
particular when the expected nonce equals the stored nonce; with a
mismatched nonce the call fails earlier, with `InvalidNonce`, not
`InvalidArgument`. -/
theorem C7_empty_batch (σ : Store) (k1 k2 k3 : Addr) (v ft tr : TokenAcct)
    (fk : Nat) (s : Bool) (e slot : Nat) :
    (process_withdraw_rewards σ k1 k2 k3 v ft tr fk s [] e slot).1 = σ ∧
    isOkE (process_withdraw_rewards σ k1 k2 k3 v ft tr fk s [] e slot).2 =
      false ∧
    (∀ p fd, σ Addr.poolPda = some (.pool p) → p.is_initialized = true →
      p.is_paused = false → σ (Addr.farmerPda fk) = some (.farmer fd) →
      fd.is_initialized = true → fd.farmer_address = fk →
      fd.withdrawal_nonce = e → k1 = Addr.poolPda →
      k2 = Addr.farmerPda fk → s = true →
      (process_withdraw_rewards σ k1 k2 k3 v ft tr fk s [] e slot).2 =
        .error .InvalidArgument) := by
  refine ⟨?_, ?_, ?_⟩
  · unfold process_withdraw_rewards
    rcases hg : withdrawGuards σ k1 k2 fk s e with err | ⟨p, fd⟩
    · rfl
    · rfl
  · unfold process_withdraw_rewards
    rcases hg : withdrawGuards σ k1 k2 fk s e with err | ⟨p, fd⟩
    · rfl
    · rfl
  · intro p fd hσp hpinit hpause hσf hfinit hfaddr hnonce hk1 hk2 hs
    subst hk1
    subst hk2
    subst hs
    have hg : withdrawGuards σ Addr.poolPda (Addr.farmerPda fk) fk true e =
        .ok (p, fd) := by
      simp [withdrawGuards, hσp, hσf, hpinit, hpause, hfinit, hfaddr,
        hnonce]
    unfold process_withdraw_rewards
    rw [hg]
    rfl

/-- Witness for C7: the theorem applied to `storeA` with an empty batch and
the correct expected nonce 0. -/
theorem C7_empty_batch_witness :
    (process_withdraw_rewards storeA .poolPda (.farmerPda 7) (.vaultPda 3)
      ⟨3, 1000⟩ ⟨3, 0⟩ ⟨3, 0⟩ 7 true [] 0 5).1 = storeA ∧
    (process_withdraw_rewards storeA .poolPda (.farmerPda 7) (.vaultPda 3)
      ⟨3, 1000⟩ ⟨3, 0⟩ ⟨3, 0⟩ 7 true [] 0 5).2 =
      .error .InvalidArgument :=
  ⟨(C7_empty_batch storeA .poolPda (.farmerPda 7) (.vaultPda 3) ⟨3, 1000⟩
      ⟨3, 0⟩ ⟨3, 0⟩ 7 true 0 5).1,
   (C7_empty_batch storeA .poolPda (.farmerPda 7) (.vaultPda 3) ⟨3, 1000⟩
      ⟨3, 0⟩ ⟨3, 0⟩ 7 true 0 5).2.2 poolA farmerA rfl rfl rfl rfl rfl rfl
      rfl rfl rfl rfl⟩

/-- Counterexample to C7 as stated: an empty batch with expected nonce 99
against `storeA` (stored nonce 0) fails with `InvalidNonce`, not
`InvalidArgument` — the error is not independent of the supplied and stored
nonce values, and the nonce check precedes the empty-batch check. -/
theorem C7_empty_batch_cex :
    process_withdraw_rewards storeA .poolPda (.farmerPda 7) (.vaultPda 3)
      ⟨3, 1000⟩ ⟨3, 0⟩ ⟨3, 0⟩ 7 true [] 99 5 =
      (storeA, .error (.Custom .InvalidNonce)) ∧
    ProgErr.Custom .InvalidNonce ≠ ProgErr.InvalidArgument :=
  ⟨rfl, by decide⟩

/-- C9: a WithdrawRewards call whose taskIds list contains the same id more
than once always fails — the per-task loop writes the claimed flag in
place, so the second occurrence is read back as already claimed — and hence
no task's reward is ever added to a successful batch total twice. -/
theorem C9_duplicate_task (σ : Store) (k1 k2 k3 : Addr)
    (v ft tr : TokenAcct) (fk : Nat) (s : Bool) (l : List String)
    (e slot : Nat) (hdup : ¬ l.Nodup) :
    isOkE (process_withdraw_rewards σ k1 k2 k3 v ft tr fk s l e slot).2 =
      false := by
  rcases hres : (process_withdraw_rewards σ k1 k2 k3 v ft tr fk s l e
    slot).2 with err | ⟨fa, pf⟩
  · rfl
  · exfalso
    have hr : process_withdraw_rewards σ k1 k2 k3 v ft tr fk s l e slot =
        ((process_withdraw_rewards σ k1 k2 k3 v ft tr fk s l e slot).1,
          .ok (fa, pf)) := by
      rw [← hres]
    obtain ⟨p, fd, σ₁, T, m, -, -, -, -, -, -, -, -, -, -, hct, -⟩ :=
      withdraw_ok_inv hr
    exact hdup (claimTasks_nodup fk l σ 0 none σ₁ (T, some m) hct)

/-- Witness for C9: the theorem applied to the duplicate batch
`["t1", "t1"]` on `storeA`. -/
theorem C9_duplicate_task_witness :
    isOkE (process_withdraw_rewards storeA .poolPda (.farmerPda 7)
      (.vaultPda 3) ⟨3, 1000⟩ ⟨3, 0⟩ ⟨3, 0⟩ 7 true ["t1", "t1"] 0 5).2 =
      false :=
  C9_duplicate_task storeA .poolPda (.farmerPda 7) (.vaultPda 3) ⟨3, 1000⟩
    ⟨3, 0⟩ ⟨3, 0⟩ 7 true ["t1", "t1"] 0 5 (by decide)

/-- C10: InitializeRewardPool never reads previously stored pool contents
and never consults an initialized flag: whenever the pool address is free
(so the external record creation succeeds), it writes a fresh PoolConfig
with authority = caller, the given fee, zero totals and paused = false —
regardless of everything else in the store — and when the address is
occupied it fails with the record creation's AlreadyInUse error, whatever
record (initialized or not) occupies it, leaving the store unchanged. -/
theorem C10_init_fresh (σ : Store) (a fee : Nat) (hfee : fee ≤ 100) :
    (σ Addr.poolPda = none →
      process_initialize_reward_pool σ Addr.poolPda a true fee =
        (update σ Addr.poolPda (.pool
          { is_initialized := true, platform_authority := a,
            platform_fee_percentage := fee, total_rewards_distributed := 0,
            total_platform_fees_collected := 0, is_paused := false }),
         .ok ())) ∧
    (∀ r : Record, σ Addr.poolPda = some r →
      process_initialize_reward_pool σ Addr.poolPda a true fee =
        (σ, .error .AccountAlreadyInUse)) := by
  constructor
  · intro hnone
    simp [process_initialize_reward_pool, hnone,
      show ¬(fee > 100) from by omega]
  · intro r hr
    simp [process_initialize_reward_pool, hr,
      show ¬(fee > 100) from by omega]

/-- Witness for C10: initializing on the empty store writes exactly
`poolA`; initializing again on `storeA` (already occupied, and with an
initialized pool record present) fails with AlreadyInUse and changes
nothing. -/
theorem C10_init_fresh_witness :
    process_initialize_reward_pool emptyStore Addr.poolPda 50 true 10 =
      (update emptyStore Addr.poolPda (.pool
        { is_initialized := true, platform_authority := 50,
          platform_fee_percentage := 10, total_rewards_distributed := 0,
          total_platform_fees_collected := 0, is_paused := false }),
       .ok ()) ∧
    process_initialize_reward_pool storeA Addr.poolPda 50 true 10 =
      (storeA, .error .AccountAlreadyInUse) :=
  ⟨(C10_init_fresh emptyStore 50 10 (by decide)).1 rfl,
   (C10_init_fresh storeA 50 10 (by decide)).2 (.pool poolA) rfl⟩
